import Mathlib

/-!
Shallow embedding of the billing backend's core financial logic
(`backend/app` of the repository) in Lean 4, together with theorems that
settle the specification claims about it.

Conventions of the embedding:
* Python `float`/`Decimal` monetary values are modelled as `ℚ` (the code
  routes all monetary computation through `decimal.Decimal`, i.e. exact
  fixed-point arithmetic, so `ℚ` is a faithful value model).
* Python `datetime.date` is modelled as `SDate` (year, month, day) with the
  lexicographic order that Python's `date` comparison implements.
* SQLAlchemy rows are modelled as structures; a table is a `List` of rows in
  insertion (rowid) order; `NULL`-able columns are `Option`s.
* In-place row mutation is modelled by returning the updated table.
* `fastapi.HTTPException` raising is modelled with `Except String`.
-/

/-- Model of `datetime.date`: a calendar date compared lexicographically. -/
structure SDate where
  year : Nat
  month : Nat
  day : Nat
deriving DecidableEq, Repr

namespace SDate

/-- Python `date` comparison `a <= b` (lexicographic on (year, month, day)). -/
def leB (a b : SDate) : Bool :=
  a.year < b.year ||
    (a.year == b.year &&
      (a.month < b.month || (a.month == b.month && a.day ≤ b.day)))

/-- Python `date` comparison `a < b` (lexicographic on (year, month, day)). -/
def ltB (a b : SDate) : Bool :=
  a.year < b.year ||
    (a.year == b.year &&
      (a.month < b.month || (a.month == b.month && a.day < b.day)))

end SDate

/-- Gregorian leap-year test (as `calendar.isleap`). -/
def isLeapYear (y : Nat) : Bool :=
  y % 4 == 0 && (y % 100 != 0 || y % 400 == 0)

/-- `calendar.monthrange(year, month)[1]`: number of days of the month. -/
def daysInMonth (year month : Nat) : Nat :=
  if month == 2 then (if isLeapYear year then 29 else 28)
  else if month == 4 || month == 6 || month == 9 || month == 11 then 30
  else 31

/-- Decimal digit-string parsing (the semantics of Python `int` on the
digit substrings sliced out of a `YYYYMM` cycle string). -/
def parseNatDigits (cs : List Char) : Nat :=
  cs.foldl (fun acc c => 10 * acc + (c.toNat - 48)) 0

/-- `int(billing_cycle[:4])`: the year encoded in a `YYYYMM` cycle string. -/
def cycleYear (billing_cycle : String) : Nat :=
  parseNatDigits (billing_cycle.data.take 4)

/-- `int(billing_cycle[4:6])`: the month encoded in a `YYYYMM` cycle string. -/
def cycleMonth (billing_cycle : String) : Nat :=
  parseNatDigits ((billing_cycle.data.drop 4).take 2)

/-- `date(y, m, 1) - timedelta(days=1)`: the last day of the month before
month `m` of year `y`. -/
def lastDayOfPrevMonth (year month : Nat) : SDate :=
  if month == 1 then ⟨year - 1, 12, 31⟩
  else ⟨year, month - 1, daysInMonth year (month - 1)⟩

/-! ## Rounding engine (`backend/app/utils.py`)

`decimal.Decimal` rounding modes over `ℚ`, expressed with `Rat.floor`
(which is kernel-computable and equals `Int.floor` definitionally). -/

/-- `ROUND_CEILING`: round toward positive infinity. Equals `⌈x⌉`. -/
def ceilingInt (x : ℚ) : ℤ := -((-x).floor)

/-- `ROUND_DOWN`: truncate toward zero. -/
def truncInt (x : ℚ) : ℤ := if 0 ≤ x then x.floor else -((-x).floor)

/-- `ROUND_HALF_UP`: round to nearest, ties away from zero. -/
def halfUpInt (x : ℚ) : ℤ :=
  if 0 ≤ x then (x + 1/2).floor else -((-x + 1/2).floor)

/-- Python `round(x, 6)`-style rounding: round to nearest, ties to even. -/
def halfEvenInt (x : ℚ) : ℤ :=
  let f := x.floor
  let r := x - f
  if r < 1/2 then f
  else if 1/2 < r then f + 1
  else if f % 2 == 0 then f else f + 1

/-- `utils.round_decimal(value, places)`: quantize with `ROUND_HALF_UP`. -/
def round_decimal (value : ℚ) (places : Nat) : ℚ :=
  (halfUpInt (value * 10 ^ places) : ℚ) / 10 ^ places

/-- Python `round(value, places)` (banker's rounding, used by pro-rata). -/
def pyRound (value : ℚ) (places : Nat) : ℚ :=
  (halfEvenInt (value * 10 ^ places) : ℚ) / 10 ^ places

/-- `utils.apply_rounding(amount, rule, decimals)`: quantize `amount` to
`decimals` places using the named rounding rule; `"ceiling"`,
`"round_half_up"`, anything else (the default) truncates (`ROUND_DOWN`).
(The Python wrapper converts to `int` for `decimals == 0`, which does not
change the value.) -/
def apply_rounding (amount : ℚ) (rule : String) (decimals : Nat) : ℚ :=
  let scale : ℚ := 10 ^ decimals
  let n : ℤ :=
    if rule == "ceiling" then ceilingInt (amount * scale)
    else if rule == "round_half_up" then halfUpInt (amount * scale)
    else truncInt (amount * scale)
  (n : ℚ) / scale

/-! ## Exchange-rate date resolution (`backend/app/api/slip.py`)

`ExchangeRateDateRule` enum values (`backend/app/models/slip.py`):
`document_date`, `first_of_document_month`, `first_of_billing_month`,
`last_of_prev_month`, `custom`. -/

/-- `slip.calculate_exchange_rate_date(rule, document_date, billing_cycle)`,
transcribed branch for branch.  Note the second `elif` in the source repeats
the condition `rule == ExchangeRateDateRule.FIRST_OF_DOCUMENT_MONTH.value`
(its body is the billing-month computation, its comment says "정산월 1일"),
so that branch is dead and is reproduced here as dead code. -/
def calculate_exchange_rate_date (rule : String) (document_date : SDate)
    (billing_cycle : Option String) : SDate :=
  if rule == "document_date" then
    document_date
  else if rule == "first_of_document_month" then
    ⟨document_date.year, document_date.month, 1⟩
  else if rule == "first_of_document_month" then
    -- dead branch: intended for "first_of_billing_month" (정산월 1일)
    match billing_cycle with
    | some c => ⟨cycleYear c, cycleMonth c, 1⟩
    | none => ⟨document_date.year, document_date.month, 1⟩
  else if rule == "last_of_prev_month" then
    lastDayOfPrevMonth document_date.year document_date.month
  else
    -- custom 또는 기타
    document_date

/-! ## Deposit ledger (`backend/app/models/billing_profile.py`,
`backend/app/services/deposit.py`) -/

/-- Row of table `deposits`. -/
structure Deposit where
  id : Nat
  profile_id : Option Nat
  contract_profile_id : Option Nat
  deposit_date : SDate
  amount : ℚ
  currency : String
  exchange_rate : Option ℚ
  remaining_amount : ℚ
  is_exhausted : Bool
  reference : Option String
  description : Option String
deriving DecidableEq, Repr

/-- Row of table `deposit_usages` (append-only consumption ledger). -/
structure DepositUsage where
  deposit_id : Nat
  usage_date : SDate
  amount : ℚ
  amount_krw : Option ℚ
  billing_cycle : Option String
  slip_batch_id : Option String
  uid : Option String
  description : Option String
deriving DecidableEq, Repr

/-- Patch payload for `update_deposit_fields` (fields absent from the
request are `none`, mirroring the `is not None` guards). -/
structure DepositUpdate where
  deposit_date : Option SDate := none
  currency : Option String := none
  exchange_rate : Option ℚ := none
  reference : Option String := none
  description : Option String := none
  amount : Option ℚ := none
deriving Repr

/-- `services.deposit.update_deposit_fields(deposit, data)`: copy each
present field; when `amount` is present and differs, shift
`remaining_amount` by the same difference, clamping at `0` and setting
`is_exhausted` when the result is `≤ 0`. -/
def update_deposit_fields (deposit : Deposit) (data : DepositUpdate) : Deposit :=
  let d1 := match data.deposit_date with
    | some v => { deposit with deposit_date := v } | none => deposit
  let d2 := match data.currency with
    | some v => { d1 with currency := v } | none => d1
  let d3 := match data.exchange_rate with
    | some v => { d2 with exchange_rate := some v } | none => d2
  let d4 := match data.reference with
    | some v => { d3 with reference := some v } | none => d3
  let d5 := match data.description with
    | some v => { d4 with description := some v } | none => d4
  match data.amount with
  | some a =>
    if a ≠ d5.amount then
      let diff := a - d5.amount
      let new_remaining := d5.remaining_amount + diff
      if new_remaining ≤ 0 then
        { d5 with amount := a, remaining_amount := 0, is_exhausted := true }
      else
        { d5 with amount := a, remaining_amount := new_remaining,
                  is_exhausted := false }
    else d5
  | none => d5

/-- Python truthiness of `deposit.exchange_rate` (`None` and `0.0` are falsy). -/
def rateTruthy : Option ℚ → Bool
  | none => false
  | some r => !(r == 0)

/-- Non-row arguments of `deposit_fifo_use` that are copied into each
created `DepositUsage`. -/
structure FifoCtx where
  usage_date : SDate
  billing_cycle : Option String := none
  slip_batch_id : Option String := none
  uid : Option String := none
  description : Option String := none
deriving Repr

/-- The `for deposit in deposits:` loop body of `deposit_fifo_use`: walk the
(date-ordered, non-exhausted) deposits, consuming
`min(remaining_to_use, deposit.remaining_amount)` from each, recording one
`DepositUsage` per touched deposit, decrementing `remaining_amount` and
setting `is_exhausted` when it reaches `0`; `break` once nothing remains to
consume (deposits after the break point are untouched). Returns the updated
deposit rows and the created usage rows, in order. -/
def fifoStep (ctx : FifoCtx) : ℚ → List Deposit → List Deposit × List DepositUsage
  | _, [] => ([], [])
  | remaining_to_use, d :: ds =>
    if remaining_to_use ≤ 0 then (d :: ds, [])
    else
      let use_from_this := min remaining_to_use d.remaining_amount
      let amount_krw : Option ℚ :=
        if d.currency ≠ "KRW" ∧ rateTruthy d.exchange_rate then
          some (round_decimal (use_from_this * ((d.exchange_rate).getD 0)) 0)
        else none
      let usage : DepositUsage :=
        { deposit_id := d.id, usage_date := ctx.usage_date,
          amount := use_from_this, amount_krw := amount_krw,
          billing_cycle := ctx.billing_cycle,
          slip_batch_id := ctx.slip_batch_id,
          uid := ctx.uid, description := ctx.description }
      let d' := { d with
        remaining_amount :=
          if d.remaining_amount - use_from_this ≤ 0 then 0
          else d.remaining_amount - use_from_this,
        is_exhausted :=
          if d.remaining_amount - use_from_this ≤ 0 then true
          else d.is_exhausted }
      (d' :: (fifoStep ctx (remaining_to_use - use_from_this) ds).1,
       usage :: (fifoStep ctx (remaining_to_use - use_from_this) ds).2)

/-- `deposit_date` ordering used by `.order_by(Deposit.deposit_date)`
(ties keep insertion order: the sort below is stable). -/
def depositDateLe (a b : Deposit) : Prop :=
  SDate.leB a.deposit_date b.deposit_date = true

instance : DecidableRel depositDateLe := fun a b =>
  instDecidableEqBool (SDate.leB a.deposit_date b.deposit_date) true

instance : IsTotal Deposit depositDateLe := by
  constructor
  intro a b
  unfold depositDateLe SDate.leB
  simp only [Bool.or_eq_true, Bool.and_eq_true, decide_eq_true_eq, beq_iff_eq]
  omega

instance : IsTrans Deposit depositDateLe := by
  constructor
  intro a b c
  unfold depositDateLe SDate.leB
  simp only [Bool.or_eq_true, Bool.and_eq_true, decide_eq_true_eq, beq_iff_eq]
  omega

/-- The documented deposit-row invariant (`backend/app/models`, spec §3):
`remaining_amount ∈ [0, amount]` and `is_exhausted ⟺ remaining_amount == 0`. -/
def depositInv (d : Deposit) : Prop :=
  0 ≤ d.remaining_amount ∧ d.remaining_amount ≤ d.amount ∧
    (d.is_exhausted = true ↔ d.remaining_amount = 0)

/-- The deposit rows selected by `deposit_fifo_use`'s query: rows whose
owner column matches, not exhausted, ordered by `deposit_date` ascending
(stably, so ties keep insertion order). `filterCol` stands for the column
object passed as `filter_column` (`Deposit.profile_id` or
`Deposit.contract_profile_id`). -/
def fifoSelect (filterCol : Deposit → Option Nat) (filterValue : Nat)
    (deposits : List Deposit) : List Deposit :=
  List.insertionSort depositDateLe
    (deposits.filter (fun d => filterCol d == some filterValue && !d.is_exhausted))

/-- Merge updated deposit rows back into the full table (the functional
rendering of SQLAlchemy's in-place row mutation: a row is replaced by its
updated version, matched by primary key). -/
def applyRowUpdates (deposits updated : List Deposit) : List Deposit :=
  deposits.map (fun d => ((updated.find? (fun u => u.id == d.id)).getD d))

/-- Result of a successful `deposit_fifo_use` call: the updated `deposits`
table, the created `deposit_usages` rows, and the reported
`remaining_balance`. -/
structure FifoOutcome where
  deposits : List Deposit
  usages : List DepositUsage
  amount_used : ℚ
  remaining_balance : ℚ
deriving Repr

/-- `services.deposit.deposit_fifo_use`: select the owner's non-exhausted
deposits ordered by `deposit_date`; fail with `InsufficientBalance` (HTTP
400, no mutation) if the requested `amount` exceeds the sum of their
`remaining_amount`; otherwise run the consumption loop and report the
rounded new balance of the owner's still-unexhausted deposits. -/
def deposit_fifo_use (filterCol : Deposit → Option Nat) (filterValue : Nat)
    (deposits : List Deposit) (amount : ℚ) (ctx : FifoCtx) :
    Except String FifoOutcome :=
  let selected := fifoSelect filterCol filterValue deposits
  let total_available := (selected.map (·.remaining_amount)).sum
  if amount > total_available then
    .error "Insufficient balance"
  else
    let selected' := (fifoStep ctx amount selected).1
    let usages := (fifoStep ctx amount selected).2
    let deposits' := applyRowUpdates deposits selected'
    let new_balance :=
      ((deposits'.filter
        (fun d => filterCol d == some filterValue && !d.is_exhausted)).map
          (·.remaining_amount)).sum
    .ok { deposits := deposits', usages := usages, amount_used := amount,
          remaining_balance := round_decimal new_balance 2 }

/-! ## Pro-rata calculator (`backend/app/api/pro_rata.py`) -/

/-- Row of `hb_contracts` (the fields `pro_rata.py` reads). -/
structure HBContract where
  seq : Nat
  contract_start_date : Option SDate
  contract_end_date : Option SDate
deriving DecidableEq, Repr

/-- Row of `pro_rata_periods`. -/
structure ProRataPeriod where
  id : Nat
  contract_seq : Nat
  billing_cycle : String
  start_day : Int
  end_day : Int
  total_days : Int
  active_days : Int
  ratio : ℚ
  is_manual : Bool
deriving DecidableEq, Repr

/-- Result triple of `calculate_pro_rata_ratio`. -/
structure ProRataCalc where
  total_days : Int
  active_days : Int
  ratio : ℚ
deriving DecidableEq, Repr

/-- `pro_rata.calculate_pro_rata_ratio(billing_cycle, start_day, end_day)`:
clip the given days into `[1, total_days]`, use `0` active days for an
inverted range, and round the ratio to 6 decimal places (Python `round`). -/
def calculate_pro_rata_ratio (billing_cycle : String)
    (start_day end_day : Int) : ProRataCalc :=
  let total_days : Int := daysInMonth (cycleYear billing_cycle) (cycleMonth billing_cycle)
  let s := max 1 (min start_day total_days)
  let e := max 1 (min end_day total_days)
  let active_days := if s > e then 0 else e - s + 1
  let ratio : ℚ := if total_days > 0 then (active_days : ℚ) / (total_days : ℚ) else 0
  { total_days := total_days, active_days := active_days,
    ratio := pyRound ratio 6 }

/-- Result dict of `auto_calculate_pro_rata` (the early `contract_not_started`
/ `contract_ended` returns carry no `start_day`/`end_day` keys, hence the
`Option`s). -/
structure AutoProRata where
  start_day : Option Int
  end_day : Option Int
  total_days : Int
  active_days : Int
  ratio : ℚ
  reason : String
deriving DecidableEq, Repr

/-- `pro_rata.auto_calculate_pro_rata(db, contract_seq, billing_cycle)`:
derive the pro-rata ratio from the contract's start/end dates intersected
with the cycle month; `none` when no proration is needed (missing contract
or full month). -/
def auto_calculate_pro_rata (contracts : List HBContract)
    (contract_seq : Nat) (billing_cycle : String) : Option AutoProRata :=
  match contracts.find? (fun c => c.seq == contract_seq) with
  | none => none
  | some contract =>
    let year := cycleYear billing_cycle
    let month := cycleMonth billing_cycle
    let total_days : Int := daysInMonth year month
    let cycle_start : SDate := ⟨year, month, 1⟩
    let cycle_end : SDate := ⟨year, month, (daysInMonth year month)⟩
    -- 계약 시작일 체크
    if (match contract.contract_start_date with
        | some s => SDate.ltB cycle_end s | none => false) then
      some { start_day := none, end_day := none, total_days := total_days,
             active_days := 0, ratio := 0, reason := "contract_not_started" }
    -- 계약 종료일 체크
    else if (match contract.contract_end_date with
        | some e => SDate.ltB e cycle_start | none => false) then
      some { start_day := none, end_day := none, total_days := total_days,
             active_days := 0, ratio := 0, reason := "contract_ended" }
    else
      let start_day : Int := match contract.contract_start_date with
        | some s => if SDate.ltB cycle_start s then (s.day : Int) else 1
        | none => 1
      let end_day : Int := match contract.contract_end_date with
        | some e => if SDate.ltB e cycle_end then (e.day : Int) else total_days
        | none => total_days
      if start_day == 1 && end_day == total_days then
        none  -- 일할 계산 불필요 (전체 월)
      else
        let active_days := end_day - start_day + 1
        let ratio : ℚ := (active_days : ℚ) / (total_days : ℚ)
        some { start_day := some start_day, end_day := some end_day,
               total_days := total_days, active_days := active_days,
               ratio := pyRound ratio 6, reason := "partial_month" }

/-- `pro_rata.get_pro_rata_ratio(db, contract_seq, billing_cycle,
pro_rata_enabled, pro_rata_override)`: contract-level override first, then a
manually registered period, then the automatic computation; ratios `≥ 1.0`
(and absence) are reported as `none` (= no proration). -/
def get_pro_rata_ratio (periods : List ProRataPeriod)
    (contracts : List HBContract) (contract_seq : Nat) (billing_cycle : String)
    (pro_rata_enabled : Bool) (pro_rata_override : Option String) : Option ℚ :=
  if pro_rata_override == some "disabled" then none
  else if pro_rata_override != some "enabled" && !pro_rata_enabled then none
  else
    match periods.find? (fun p =>
        p.contract_seq == contract_seq && p.billing_cycle == billing_cycle) with
    | some manual_period =>
      if manual_period.ratio < 1 then some manual_period.ratio else none
    | none =>
      match auto_calculate_pro_rata contracts contract_seq billing_cycle with
      | some auto_result =>
        if auto_result.ratio < 1 then some auto_result.ratio else none
      | none => none

/-! ## Split billing allocator (`backend/app/api/split_billing.py`) -/

/-- Row of `split_billing_allocations` (`SplitType` values:
`"percentage"`, `"fixed_amount"`). -/
structure SplitAlloc where
  id : Nat
  rule_id : Nat
  target_company_seq : Nat
  split_type : String
  split_value : ℚ
  priority : Int
  note : Option String
deriving DecidableEq, Repr

/-- Row of `split_billing_rules` (allocations live in their own table). -/
structure SplitRule where
  id : Nat
  source_account_id : String
  source_contract_seq : Nat
  name : String
  is_active : Bool
  effective_from : Option SDate
  effective_to : Option SDate
deriving DecidableEq, Repr

/-- The allocations of a rule (the `rule.allocations` relationship). -/
def ruleAllocations (allocs : List SplitAlloc) (rule : SplitRule) : List SplitAlloc :=
  allocs.filter (fun a => a.rule_id == rule.id)

/-- `sorted(rule.allocations, key=lambda x: (x.priority, x.id))` ordering. -/
def allocOrder (a b : SplitAlloc) : Prop :=
  a.priority < b.priority ∨ (a.priority = b.priority ∧ a.id ≤ b.id)

instance : DecidableRel allocOrder := fun a b => by
  unfold allocOrder; infer_instance

instance : IsTotal SplitAlloc allocOrder := by
  constructor; intro a b; unfold allocOrder; omega

instance : IsTrans SplitAlloc allocOrder := by
  constructor; intro a b c; unfold allocOrder; omega

/-- One entry of the `results` list built by `calculate_split_amounts`. -/
structure SplitResultEntry where
  allocation_id : Nat
  target_company_seq : Nat
  split_type : String
  split_value : ℚ
  allocated_amount_usd : ℚ
deriving DecidableEq, Repr

/-- The `for alloc in allocations:` loop of `calculate_split_amounts`: in
order, a `fixed_amount` allocation takes `min(value, remaining)`, a
percentage allocation takes `round_half_up(amount_usd * value / 100, 2)`
capped at `remaining`; the loop breaks once `remaining <= 0`. Returns the
result entries and the final remainder. -/
def splitLoop (amount_usd : ℚ) : ℚ → List SplitAlloc → List SplitResultEntry × ℚ
  | remaining, [] => ([], remaining)
  | remaining, alloc :: rest =>
    if remaining ≤ 0 then ([], remaining)
    else
      let alloc_amount :=
        if alloc.split_type == "fixed_amount" then
          min alloc.split_value remaining
        else
          min (round_decimal (amount_usd * alloc.split_value / 100) 2) remaining
      let entry : SplitResultEntry :=
        { allocation_id := alloc.id,
          target_company_seq := alloc.target_company_seq,
          split_type := alloc.split_type, split_value := alloc.split_value,
          allocated_amount_usd := alloc_amount }
      (entry :: (splitLoop amount_usd (remaining - alloc_amount) rest).1,
       (splitLoop amount_usd (remaining - alloc_amount) rest).2)

/-- Result dict of `calculate_split_amounts`. -/
structure SplitOutcome where
  rule_id : Nat
  allocations : List SplitResultEntry
  remaining : ℚ
deriving DecidableEq, Repr

/-- `split_billing.calculate_split_amounts(db, source_account_id,
amount_usd, billing_cycle)`: find the first active rule for the UID, check
its effective window against the cycle's first day, process its allocations
in `(priority, id)` order, and quantize the reported remainder down to 2
decimals. `none` when no applicable rule exists. -/
def calculate_split_amounts (rules : List SplitRule) (allocs : List SplitAlloc)
    (source_account_id : String) (amount_usd : ℚ) (billing_cycle : String) :
    Option SplitOutcome :=
  let cycle_date : SDate := ⟨cycleYear billing_cycle, cycleMonth billing_cycle, 1⟩
  match rules.find? (fun r =>
      r.source_account_id == source_account_id && r.is_active) with
  | none => none
  | some rule =>
    -- 유효 기간 체크
    if (match rule.effective_from with
        | some f => SDate.ltB cycle_date f | none => false) then none
    else if (match rule.effective_to with
        | some t => SDate.ltB t cycle_date | none => false) then none
    else
      let allocations := List.insertionSort allocOrder (ruleAllocations allocs rule)
      let (results, remaining) := splitLoop amount_usd amount_usd allocations
      some { rule_id := rule.id, allocations := results,
             remaining := (truncInt (remaining * 100) : ℚ) / 100 }

/-- Request payload of one allocation in `create_split_rule` /
`add_allocation`. -/
structure AllocationCreate where
  target_company_seq : Nat
  split_type : String
  split_value : ℚ
  priority : Int
  note : Option String := none
deriving Repr

/-- Request payload of `create_split_rule`. -/
structure SplitRuleCreate where
  source_account_id : String
  source_contract_seq : Nat
  name : Option String := none
  effective_from : Option SDate := none
  effective_to : Option SDate := none
  allocations : List AllocationCreate
deriving Repr

/-- Sum of `split_value` over the `percentage` allocations of a payload
(the `total_percentage` accumulator of `create_split_rule`). -/
def totalPercentage (allocations : List AllocationCreate) : ℚ :=
  ((allocations.filter (fun a => a.split_type == "percentage")).map
    (·.split_value)).sum

/-- `split_billing.create_split_rule(data, db)`: validate that the source
account, source contract and every target company exist, reject a
percentage total above `100`, then insert the rule row and its allocation
rows (with ids `firstAllocId, firstAllocId+1, ...`). Returns the new
tables. -/
def create_split_rule (accountIds : List String) (contractSeqs : List Nat)
    (companySeqs : List Nat) (rules : List SplitRule) (allocs : List SplitAlloc)
    (newRuleId firstAllocId : Nat) (data : SplitRuleCreate) :
    Except String (List SplitRule × List SplitAlloc) :=
  if !(accountIds.contains data.source_account_id) then
    .error "Source account (UID) not found"
  else if !(contractSeqs.contains data.source_contract_seq) then
    .error "Source contract not found"
  else if data.allocations.any
      (fun a => !(companySeqs.contains a.target_company_seq)) then
    .error "Target company not found"
  -- 비율 합계 검증 (100% 초과 불가)
  else if totalPercentage data.allocations > 100 then
    .error "Total percentage exceeds 100%"
  else
    let rule : SplitRule :=
      { id := newRuleId, source_account_id := data.source_account_id,
        source_contract_seq := data.source_contract_seq,
        name := (data.name).getD ("Split rule for " ++ data.source_account_id),
        is_active := true,
        effective_from := data.effective_from,
        effective_to := data.effective_to }
    let newAllocs := (List.enumFrom firstAllocId data.allocations).map
      (fun p => ({ id := p.1, rule_id := newRuleId,
                   target_company_seq := p.2.target_company_seq,
                   split_type := p.2.split_type, split_value := p.2.split_value,
                   priority := p.2.priority, note := p.2.note } : SplitAlloc))
    .ok (rules ++ [rule], allocs ++ newAllocs)

/-- `split_billing.add_allocation(rule_id, data, db)`: require the rule and
the target company to exist, then insert the allocation row. No validation
of the rule's percentage total is performed. -/
def add_allocation (companySeqs : List Nat) (rules : List SplitRule)
    (allocs : List SplitAlloc) (rule_id : Nat) (newAllocId : Nat)
    (data : AllocationCreate) : Except String (List SplitAlloc) :=
  if !(rules.any (fun r => r.id == rule_id)) then
    .error "Split billing rule not found"
  else if !(companySeqs.contains data.target_company_seq) then
    .error "Target company not found"
  else
    .ok (allocs ++ [{ id := newAllocId, rule_id := rule_id,
                      target_company_seq := data.target_company_seq,
                      split_type := data.split_type,
                      split_value := data.split_value,
                      priority := data.priority, note := data.note }])

/-- Patch payload of `update_allocation` (absent fields are `none`). -/
structure AllocationUpdate where
  target_company_seq : Option Nat := none
  split_type : Option String := none
  split_value : Option ℚ := none
  priority : Option Int := none
  note : Option String := none
deriving Repr

/-- `split_billing.update_allocation(allocation_id, data, db)`: find the
allocation row and overwrite each present field. No validation of the
rule's percentage total is performed. -/
def update_allocation (allocs : List SplitAlloc) (allocation_id : Nat)
    (data : AllocationUpdate) : Except String (List SplitAlloc) :=
  if !(allocs.any (fun a => a.id == allocation_id)) then
    .error "Allocation not found"
  else
    .ok (allocs.map (fun a =>
      if a.id == allocation_id then
        { a with
          target_company_seq := (data.target_company_seq).getD a.target_company_seq,
          split_type := (data.split_type).getD a.split_type,
          split_value := (data.split_value).getD a.split_value,
          priority := (data.priority).getD a.priority,
          note := match data.note with | some n => some n | none => a.note }
      else a))

/-! ## Slip records: edit, confirm, delete
(`backend/app/api/slip.py`, `backend/app/models/slip.py`) -/

/-- Row of `bp_codes` (the fields `update_slip` reads). -/
structure BPCode where
  bp_number : String
  name_local : Option String
deriving DecidableEq, Repr

/-- Row of `slip_records` (the fields relevant to editing, confirmation and
batch deletion). -/
structure SlipRecord where
  id : Nat
  batch_id : String
  partner : Option String
  partner_name : Option String
  zzcon : Option String
  ar_account : Option String
  wrbtr : ℚ
  dmbtr_c : Option ℚ
  exchange_rate : Option ℚ
  zzsempnm : Option String
  zzinvno : Option String
  is_confirmed : Bool
deriving DecidableEq, Repr

/-- Python truthiness of the `partner` column (`None` and `""` are falsy):
`no_bp = [s for s in slips if not s.partner]`. -/
def partnerMissing : Option String → Bool
  | none => true
  | some s => s == ""

/-- Patch payload of `update_slip` (absent fields are `none`, mirroring
`model_dump(exclude_unset=True)`). -/
structure SlipUpdate where
  partner : Option String := none
  ar_account : Option String := none
  wrbtr : Option ℚ := none
  dmbtr_c : Option ℚ := none
  exchange_rate : Option ℚ := none
  zzsempnm : Option String := none
  zzinvno : Option String := none
deriving Repr

/-- `slip.update_slip(slip_id, data, db)` restricted to one row: rejected
with HTTP 400 when the slip is confirmed; otherwise the present fields are
copied onto the row (a present `partner` also sets `zzcon` and refreshes
`partner_name` from the BP master). -/
def update_slip (bps : List BPCode) (slip : SlipRecord) (data : SlipUpdate) :
    Except String SlipRecord :=
  if slip.is_confirmed then
    .error "Cannot modify confirmed slip"
  else
    let s1 := match data.partner with
      | some p =>
        let name := match bps.find? (fun (b : BPCode) => b.bp_number == p) with
          | some bp => bp.name_local
          | none => slip.partner_name
        { slip with partner := some p, zzcon := some p, partner_name := name }
      | none => slip
    .ok { s1 with
      ar_account := match data.ar_account with
        | some v => some v | none => s1.ar_account,
      wrbtr := (data.wrbtr).getD s1.wrbtr,
      dmbtr_c := match data.dmbtr_c with | some v => some v | none => s1.dmbtr_c,
      exchange_rate := match data.exchange_rate with
        | some v => some v | none => s1.exchange_rate,
      zzsempnm := match data.zzsempnm with | some v => some v | none => s1.zzsempnm,
      zzinvno := match data.zzinvno with | some v => some v | none => s1.zzinvno }

/-- `slip.confirm_slips(batch_id, db)`: 404 when the batch has no rows, 400
when any row of the batch has no resolved partner code, otherwise set
`is_confirmed` on every row of the batch. -/
def confirm_slips (slips : List SlipRecord) (batch_id : String) :
    Except String (List SlipRecord) :=
  let batch := slips.filter (fun s => s.batch_id == batch_id)
  if batch.isEmpty then
    .error "Batch not found"
  else if !(batch.filter (fun s => partnerMissing s.partner)).isEmpty then
    .error "Cannot confirm: slips without BP mapping"
  else
    .ok (slips.map (fun s =>
      if s.batch_id == batch_id then { s with is_confirmed := true } else s))

/-- The reversal step of `delete_batch` for one `DepositUsage` row: find the
first deposit with the usage's `deposit_id` (the primary-key `.first()`
lookup), restore its `remaining_amount` by the usage amount and clear
`is_exhausted`; a missing deposit leaves the table unchanged. -/
def restoreUsage : List Deposit → DepositUsage → List Deposit
  | [], _ => []
  | d :: ds, u =>
    if d.id == u.deposit_id then
      { d with remaining_amount := d.remaining_amount + u.amount,
               is_exhausted := false } :: ds
    else d :: restoreUsage ds u

/-- Result of a successful `delete_batch` call. -/
structure DeleteBatchOutcome where
  slips : List SlipRecord
  deposits : List Deposit
  usages : List DepositUsage
deriving Repr

/-- `slip.delete_batch(batch_id, db)`: 404 when the batch has no rows, 400
when any row is confirmed; otherwise restore every deposit referenced by a
`DepositUsage` of this batch and delete those usage rows, then delete the
batch's slip rows. -/
def delete_batch (slips : List SlipRecord) (deposits : List Deposit)
    (usages : List DepositUsage) (batch_id : String) :
    Except String DeleteBatchOutcome :=
  let batch := slips.filter (fun s => s.batch_id == batch_id)
  if batch.isEmpty then
    .error "Batch not found"
  else if !(batch.filter (fun s => s.is_confirmed)).isEmpty then
    .error "Cannot delete: slips are confirmed"
  else
    -- 예치금 사용 기록 복원 (이 배치로 차감된 예치금 되돌리기)
    let batch_usages := usages.filter (fun u => u.slip_batch_id == some batch_id)
    let deposits' := batch_usages.foldl restoreUsage deposits
    .ok { slips := slips.filter (fun s => !(s.batch_id == batch_id)),
          deposits := deposits',
          usages := usages.filter (fun u => !(u.slip_batch_id == some batch_id)) }

/-! ## Concrete fixture (spec §8 scenario: deposits 30 and 50, consume 40) -/

/-- Deposit of 30 KRW dated 2025-01-01 for billing profile 1. -/
def demoD1 : Deposit :=
  { id := 1, profile_id := some 1, contract_profile_id := none,
    deposit_date := ⟨2025, 1, 1⟩, amount := 30, currency := "KRW",
    exchange_rate := none, remaining_amount := 30, is_exhausted := false,
    reference := none, description := none }

/-- Deposit of 50 KRW dated 2025-01-10 for billing profile 1. -/
def demoD2 : Deposit :=
  { id := 2, profile_id := some 1, contract_profile_id := none,
    deposit_date := ⟨2025, 1, 10⟩, amount := 50, currency := "KRW",
    exchange_rate := none, remaining_amount := 50, is_exhausted := false,
    reference := none, description := none }

/-- The two-row `deposits` table of the scenario. -/
def demoDeposits : List Deposit := [demoD1, demoD2]

/-- The usage context of the scenario run (slip batch `"B1"`). -/
def demoCtx : FifoCtx :=
  { usage_date := ⟨2025, 2, 1⟩, slip_batch_id := some "B1" }

/-- The outcome of consuming 40 from the scenario table: the first deposit
is exhausted for 30, the second contributes 10 and keeps 40. -/
def demoOut : FifoOutcome :=
  { deposits :=
      [{ demoD1 with remaining_amount := 0, is_exhausted := true },
       { demoD2 with remaining_amount := 40 }],
    usages :=
      [{ deposit_id := 1, usage_date := ⟨2025, 2, 1⟩, amount := 30,
         amount_krw := none, billing_cycle := none,
         slip_batch_id := some "B1", uid := none, description := none },
       { deposit_id := 2, usage_date := ⟨2025, 2, 1⟩, amount := 10,
         amount_krw := none, billing_cycle := none,
         slip_batch_id := some "B1", uid := none, description := none }],
    amount_used := 40,
    remaining_balance := 40 }

/-- The one-row unconfirmed `slip_records` table of batch `"B1"`. -/
def demoSlips : List SlipRecord :=
  [{ id := 1, batch_id := "B1", partner := some "P001",
     partner_name := some "Partner", zzcon := some "P001",
     ar_account := none, wrbtr := 40, dmbtr_c := none,
     exchange_rate := none, zzsempnm := none, zzinvno := none,
     is_confirmed := false }]

/-! ## Helper lemmas about the rounding primitives -/

lemma ratFloor_eq (q : ℚ) : q.floor = ⌊q⌋ := rfl

lemma ceilingInt_eq (x : ℚ) : ceilingInt x = ⌈x⌉ := by
  unfold ceilingInt
  rw [ratFloor_eq, Int.floor_neg, neg_neg]

lemma truncInt_intCast (n : ℤ) : truncInt (n : ℚ) = n := by
  unfold truncInt
  split_ifs with h
  · rw [ratFloor_eq, Int.floor_intCast]
  · rw [ratFloor_eq, show (-(n:ℚ)) = ((-n : ℤ) : ℚ) by push_cast; ring,
      Int.floor_intCast]
    ring

lemma halfUpInt_intCast (n : ℤ) : halfUpInt (n : ℚ) = n := by
  unfold halfUpInt
  split_ifs with h
  · rw [ratFloor_eq, add_comm, Int.floor_add_int]
    norm_num
  · rw [ratFloor_eq]
    rw [show (-(n:ℚ) + 1/2) = 1/2 + ((-n : ℤ) : ℚ) by push_cast; ring]
    rw [Int.floor_add_int]
    norm_num

lemma halfEvenInt_intCast (n : ℤ) : halfEvenInt (n : ℚ) = n := by
  unfold halfEvenInt
  rw [ratFloor_eq, Int.floor_intCast]
  norm_num

lemma apply_rounding_eq_div (x : ℚ) (rule : String) (d : ℕ) :
    ∃ n : ℤ, apply_rounding x rule d = (n : ℚ) / 10 ^ d := by
  unfold apply_rounding
  split_ifs <;> exact ⟨_, rfl⟩

/-! ## Claim theorems -/

/-- C9: for every amount `x`, rounding rule `r` (including `floor`,
`ceiling` and `round_half_up`) and decimal count `d`, `apply_rounding` is
idempotent: `apply_rounding (apply_rounding x r d) r d =
apply_rounding x r d`. -/
theorem apply_rounding_idempotent (x : ℚ) (rule : String) (decimals : Nat) :
    apply_rounding (apply_rounding x rule decimals) rule decimals =
      apply_rounding x rule decimals := by
  obtain ⟨n, hn⟩ := apply_rounding_eq_div x rule decimals
  rw [hn]
  have hs : ((10:ℚ) ^ decimals) ≠ 0 := by positivity
  have harg : (n : ℚ) / 10 ^ decimals * 10 ^ decimals = (n : ℚ) := by
    field_simp
  unfold apply_rounding
  dsimp only
  rw [harg]
  split_ifs <;>
    simp [truncInt_intCast, halfUpInt_intCast, ceilingInt_eq, Int.ceil_intCast]

/-- C2 (code-bug evidence): the claim says the rule `first_of_billing_month`
resolves to the first day of the billing-cycle month, but in
`calculate_exchange_rate_date` the branch for that rule is dead (its `elif`
repeats the `first_of_document_month` condition), so the rule falls through
to the default branch and returns the document date unchanged: with
document date 2025-03-15 and billing cycle `202501` the code returns
2025-03-15, not 2025-01-01.  (The other four rules behave as claimed, shown
here on the same document date.) -/
theorem calculate_exchange_rate_date_billing_month_dead_branch :
    calculate_exchange_rate_date "first_of_billing_month" ⟨2025, 3, 15⟩
        (some "202501") = ⟨2025, 3, 15⟩ ∧
      (⟨2025, 3, 15⟩ : SDate) ≠ ⟨2025, 1, 1⟩ ∧
      calculate_exchange_rate_date "document_date" ⟨2025, 3, 15⟩
        (some "202501") = ⟨2025, 3, 15⟩ ∧
      calculate_exchange_rate_date "first_of_document_month" ⟨2025, 3, 15⟩
        (some "202501") = ⟨2025, 3, 1⟩ ∧
      calculate_exchange_rate_date "last_of_prev_month" ⟨2025, 3, 15⟩
        (some "202501") = ⟨2025, 2, 28⟩ ∧
      calculate_exchange_rate_date "custom" ⟨2025, 3, 15⟩
        (some "202501") = ⟨2025, 3, 15⟩ := by
  refine ⟨?_, by decide, ?_, ?_, ?_, ?_⟩ <;>
    simp [calculate_exchange_rate_date, lastDayOfPrevMonth, daysInMonth,
      isLeapYear]

/-- C4 (counterexample): on a deposit with `amount = 100` and
`remaining_amount = 50`, an administrative correction to `amount = 200`
leaves `remaining_amount = 150` (the additive difference), not the
proportionally rescaled `50 * (200 / 100) = 100` the claim describes. -/
theorem update_deposit_fields_not_proportional :
    (update_deposit_fields
        { id := 1, profile_id := some 1, contract_profile_id := none,
          deposit_date := ⟨2025, 1, 1⟩, amount := 100, currency := "KRW",
          exchange_rate := none, remaining_amount := 50, is_exhausted := false,
          reference := none, description := none }
        { amount := some 200 }).remaining_amount = 150 ∧
      (150 : ℚ) ≠ 50 * (200 / 100) := by
  constructor
  · norm_num [update_deposit_fields]
  · norm_num

/-- C4 (amended): when an administrative correction changes a deposit's
`amount` from `old` to a different value `a`, the remaining balance is
adjusted by the same additive difference — `remaining + (a - old)` —
clamped at `0` (with `is_exhausted` set exactly when the clamp applies);
deposits are otherwise not re-derived (an update without an amount change
leaves `amount`, `remaining_amount` and `is_exhausted` untouched). -/
theorem update_deposit_fields_amount_additive (d : Deposit)
    (data : DepositUpdate) (a : ℚ) (ha : data.amount = some a)
    (hne : a ≠ d.amount) :
    ((update_deposit_fields d data).amount = a ∧
      (d.remaining_amount + (a - d.amount) ≤ 0 →
        (update_deposit_fields d data).remaining_amount = 0 ∧
          (update_deposit_fields d data).is_exhausted = true) ∧
      (0 < d.remaining_amount + (a - d.amount) →
        (update_deposit_fields d data).remaining_amount =
            d.remaining_amount + (a - d.amount) ∧
          (update_deposit_fields d data).is_exhausted = false)) ∧
      ∀ data2 : DepositUpdate, data2.amount = none →
        (update_deposit_fields d data2).amount = d.amount ∧
          (update_deposit_fields d data2).remaining_amount =
            d.remaining_amount ∧
          (update_deposit_fields d data2).is_exhausted = d.is_exhausted := by
  constructor
  · rcases data with ⟨dd, cc, er, rf, ds, am⟩
    cases am with
    | none => exact absurd ha (by simp)
    | some a0 =>
      have haa : a0 = a := by injection ha
      subst haa
      unfold update_deposit_fields
      cases dd <;> cases cc <;> cases er <;> cases rf <;> cases ds <;>
        · by_cases hle : d.remaining_amount + (a0 - d.amount) ≤ 0
          · refine ⟨?_, fun _ => ⟨?_, ?_⟩,
              fun h => absurd hle (not_le.mpr h)⟩ <;> simp [hne, hle]
          · refine ⟨?_, fun h => absurd h hle, fun _ => ⟨?_, ?_⟩⟩ <;>
              simp [hne, hle]
  · intro data2 h2
    rcases data2 with ⟨dd, cc, er, rf, ds, am⟩
    cases am with
    | some a0 => exact absurd h2 (by simp)
    | none =>
      unfold update_deposit_fields
      cases dd <;> cases cc <;> cases er <;> cases rf <;> cases ds <;>
        exact ⟨rfl, rfl, rfl⟩

/-- Witness for `update_deposit_fields_amount_additive` at the deposit
(amount 100, remaining 50) corrected to amount 200. -/
theorem update_deposit_fields_amount_additive_witness :
    (({ amount := some 200 } : DepositUpdate).amount = some (200 : ℚ)) ∧
      ((200 : ℚ) ≠ 100) ∧
      (((update_deposit_fields
          { id := 1, profile_id := some 1, contract_profile_id := none,
            deposit_date := ⟨2025, 1, 1⟩, amount := 100, currency := "KRW",
            exchange_rate := none, remaining_amount := 50,
            is_exhausted := false, reference := none, description := none }
          { amount := some 200 }).amount = 200 ∧
        ((50 : ℚ) + (200 - 100) ≤ 0 →
          (update_deposit_fields
            { id := 1, profile_id := some 1, contract_profile_id := none,
              deposit_date := ⟨2025, 1, 1⟩, amount := 100, currency := "KRW",
              exchange_rate := none, remaining_amount := 50,
              is_exhausted := false, reference := none, description := none }
            { amount := some 200 }).remaining_amount = 0 ∧
            (update_deposit_fields
              { id := 1, profile_id := some 1, contract_profile_id := none,
                deposit_date := ⟨2025, 1, 1⟩, amount := 100, currency := "KRW",
                exchange_rate := none, remaining_amount := 50,
                is_exhausted := false, reference := none, description := none }
              { amount := some 200 }).is_exhausted = true) ∧
        ((0 : ℚ) < 50 + (200 - 100) →
          (update_deposit_fields
            { id := 1, profile_id := some 1, contract_profile_id := none,
              deposit_date := ⟨2025, 1, 1⟩, amount := 100, currency := "KRW",
              exchange_rate := none, remaining_amount := 50,
              is_exhausted := false, reference := none, description := none }
            { amount := some 200 }).remaining_amount = 50 + (200 - 100) ∧
            (update_deposit_fields
              { id := 1, profile_id := some 1, contract_profile_id := none,
                deposit_date := ⟨2025, 1, 1⟩, amount := 100, currency := "KRW",
                exchange_rate := none, remaining_amount := 50,
                is_exhausted := false, reference := none, description := none }
              { amount := some 200 }).is_exhausted = false)) ∧
        ∀ data2 : DepositUpdate, data2.amount = none →
          (update_deposit_fields
            { id := 1, profile_id := some 1, contract_profile_id := none,
              deposit_date := ⟨2025, 1, 1⟩, amount := 100, currency := "KRW",
              exchange_rate := none, remaining_amount := 50,
              is_exhausted := false, reference := none, description := none }
            data2).amount = 100 ∧
            (update_deposit_fields
              { id := 1, profile_id := some 1, contract_profile_id := none,
                deposit_date := ⟨2025, 1, 1⟩, amount := 100, currency := "KRW",
                exchange_rate := none, remaining_amount := 50,
                is_exhausted := false, reference := none, description := none }
              data2).remaining_amount = 50 ∧
            (update_deposit_fields
              { id := 1, profile_id := some 1, contract_profile_id := none,
                deposit_date := ⟨2025, 1, 1⟩, amount := 100, currency := "KRW",
                exchange_rate := none, remaining_amount := 50,
                is_exhausted := false, reference := none, description := none }
              data2).is_exhausted = false) :=
  ⟨rfl, by norm_num,
    update_deposit_fields_amount_additive _ _ 200 rfl (by norm_num)⟩

/-- C10: the 100% cap on percentage allocations is enforced only at rule
creation.  Creating a rule with 60% + 40% succeeds; afterwards
`add_allocation` accepts another 50% without any error, leaving the rule's
percentage allocations summing to 150% > 100%; likewise `update_allocation`
raises an existing 40% to 90% without any error (sum 150% > 100%) — while
`create_split_rule` itself rejects a payload whose percentages sum to
150%. -/
theorem split_percentage_cap_only_at_creation :
    create_split_rule ["uid1"] [7] [1, 2] [] [] 1 1
        { source_account_id := "uid1", source_contract_seq := 7,
          allocations :=
            [{ target_company_seq := 1, split_type := "percentage",
               split_value := 60, priority := 1 },
             { target_company_seq := 2, split_type := "percentage",
               split_value := 40, priority := 2 }] } =
      .ok ([{ id := 1, source_account_id := "uid1", source_contract_seq := 7,
              name := "Split rule for uid1", is_active := true,
              effective_from := none, effective_to := none }],
           [{ id := 1, rule_id := 1, target_company_seq := 1,
              split_type := "percentage", split_value := 60, priority := 1,
              note := none },
            { id := 2, rule_id := 1, target_company_seq := 2,
              split_type := "percentage", split_value := 40, priority := 2,
              note := none }]) ∧
    add_allocation [1, 2]
        [{ id := 1, source_account_id := "uid1", source_contract_seq := 7,
           name := "Split rule for uid1", is_active := true,
           effective_from := none, effective_to := none }]
        [{ id := 1, rule_id := 1, target_company_seq := 1,
           split_type := "percentage", split_value := 60, priority := 1,
           note := none },
         { id := 2, rule_id := 1, target_company_seq := 2,
           split_type := "percentage", split_value := 40, priority := 2,
           note := none }] 1 3
        { target_company_seq := 1, split_type := "percentage",
          split_value := 50, priority := 3 } =
      .ok [{ id := 1, rule_id := 1, target_company_seq := 1,
             split_type := "percentage", split_value := 60, priority := 1,
             note := none },
           { id := 2, rule_id := 1, target_company_seq := 2,
             split_type := "percentage", split_value := 40, priority := 2,
             note := none },
           { id := 3, rule_id := 1, target_company_seq := 1,
             split_type := "percentage", split_value := 50, priority := 3,
             note := none }] ∧
    (((ruleAllocations
        [{ id := 1, rule_id := 1, target_company_seq := 1,
           split_type := "percentage", split_value := 60, priority := 1,
           note := none },
         { id := 2, rule_id := 1, target_company_seq := 2,
           split_type := "percentage", split_value := 40, priority := 2,
           note := none },
         { id := 3, rule_id := 1, target_company_seq := 1,
           split_type := "percentage", split_value := 50, priority := 3,
           note := none }]
        { id := 1, source_account_id := "uid1", source_contract_seq := 7,
          name := "Split rule for uid1", is_active := true,
          effective_from := none, effective_to := none }).filter
        (fun a => a.split_type == "percentage")).map (·.split_value)).sum =
      150 ∧
    update_allocation
        [{ id := 1, rule_id := 1, target_company_seq := 1,
           split_type := "percentage", split_value := 60, priority := 1,
           note := none },
         { id := 2, rule_id := 1, target_company_seq := 2,
           split_type := "percentage", split_value := 40, priority := 2,
           note := none }] 2 { split_value := some 90 } =
      .ok [{ id := 1, rule_id := 1, target_company_seq := 1,
             split_type := "percentage", split_value := 60, priority := 1,
             note := none },
           { id := 2, rule_id := 1, target_company_seq := 2,
             split_type := "percentage", split_value := 90, priority := 2,
             note := none }] ∧
    (60 : ℚ) + 50 + 40 > 100 ∧ (60 : ℚ) + 90 > 100 ∧
    create_split_rule ["uid1"] [7] [1, 2] [] [] 1 1
        { source_account_id := "uid1", source_contract_seq := 7,
          allocations :=
            [{ target_company_seq := 1, split_type := "percentage",
               split_value := 60, priority := 1 },
             { target_company_seq := 2, split_type := "percentage",
               split_value := 40, priority := 2 },
             { target_company_seq := 1, split_type := "percentage",
               split_value := 50, priority := 3 }] } =
      .error "Total percentage exceeds 100%" := by
  refine ⟨?_, ?_, ?_, ?_, by norm_num, by norm_num, ?_⟩ <;>
    norm_num [create_split_rule, add_allocation, update_allocation,
      ruleAllocations, totalPercentage, List.enumFrom] <;>
    decide

/-! ## Lemmas for the pro-rata calculator -/

lemma SDate.ltB_iff (a b : SDate) : SDate.ltB a b = true ↔
    (a.year < b.year ∨ (a.year = b.year ∧
      (a.month < b.month ∨ (a.month = b.month ∧ a.day < b.day)))) := by
  rcases a with ⟨ay, am, ad⟩
  rcases b with ⟨by_, bm, bd⟩
  simp [SDate.ltB]

lemma SDate.leB_iff (a b : SDate) : SDate.leB a b = true ↔
    (a.year < b.year ∨ (a.year = b.year ∧
      (a.month < b.month ∨ (a.month = b.month ∧ a.day ≤ b.day)))) := by
  rcases a with ⟨ay, am, ad⟩
  rcases b with ⟨by_, bm, bd⟩
  simp [SDate.leB]

lemma daysInMonth_pos (year month : Nat) : 0 < daysInMonth year month := by
  unfold daysInMonth
  split_ifs <;> omega

lemma halfEvenInt_nonneg (x : ℚ) (hx : 0 ≤ x) : 0 ≤ halfEvenInt x := by
  unfold halfEvenInt
  dsimp only
  rw [ratFloor_eq]
  have h0 : (0 : ℤ) ≤ ⌊x⌋ := Int.floor_nonneg.mpr hx
  split_ifs <;> omega

lemma halfEvenInt_le_of_le (x : ℚ) (B : ℤ) (hx : x ≤ (B : ℚ)) :
    halfEvenInt x ≤ B := by
  unfold halfEvenInt
  dsimp only
  rw [ratFloor_eq]
  have hfB : ⌊x⌋ ≤ B := by
    have := Int.floor_le_floor hx
    rwa [Int.floor_intCast] at this
  split_ifs with h1 h2 h3
  · exact hfB
  · -- x - ⌊x⌋ > 1/2, so ⌊x⌋ < x ≤ B and ⌊x⌋ + 1 ≤ B
    have hlt : (⌊x⌋ : ℚ) < x := by linarith
    have : (⌊x⌋ : ℚ) < (B : ℚ) := lt_of_lt_of_le hlt hx
    have := Int.cast_lt.mp this
    omega
  · exact hfB
  · have hlt : (⌊x⌋ : ℚ) < x := by
      have hge : (1 : ℚ)/2 ≤ x - ⌊x⌋ := le_of_not_lt h1
      linarith
    have : (⌊x⌋ : ℚ) < (B : ℚ) := lt_of_lt_of_le hlt hx
    have := Int.cast_lt.mp this
    omega

lemma pyRound_nonneg (x : ℚ) (places : Nat) (hx : 0 ≤ x) :
    0 ≤ pyRound x places := by
  unfold pyRound
  have h1 : (0 : ℤ) ≤ halfEvenInt (x * 10 ^ places) := by
    apply halfEvenInt_nonneg
    positivity
  have h2 : (0 : ℚ) < 10 ^ places := by positivity
  positivity

lemma pyRound_le_one (x : ℚ) (places : Nat) (hx : x ≤ 1) :
    pyRound x places ≤ 1 := by
  unfold pyRound
  have h2 : (0 : ℚ) < 10 ^ places := by positivity
  have h1 : halfEvenInt (x * 10 ^ places) ≤ ((10 : ℤ) ^ places) := by
    apply halfEvenInt_le_of_le
    push_cast
    nlinarith
  rw [div_le_one h2]
  calc ((halfEvenInt (x * 10 ^ places) : ℤ) : ℚ) ≤ (((10 : ℤ) ^ places : ℤ) : ℚ) := by
        exact_mod_cast h1
    _ = 10 ^ places := by push_cast; ring

lemma calculate_pro_rata_ratio_bounds (cycle : String) (s e : Int) :
    0 ≤ (calculate_pro_rata_ratio cycle s e).ratio ∧
      (calculate_pro_rata_ratio cycle s e).ratio ≤ 1 := by
  unfold calculate_pro_rata_ratio
  dsimp only
  have hT : (0 : ℤ) < (daysInMonth (cycleYear cycle) (cycleMonth cycle) : ℤ) := by
    exact_mod_cast daysInMonth_pos (cycleYear cycle) (cycleMonth cycle)
  set T : ℤ := (daysInMonth (cycleYear cycle) (cycleMonth cycle) : ℤ) with hTdef
  set s' : ℤ := max 1 (min s T) with hs'def
  set e' : ℤ := max 1 (min e T) with he'def
  have hs'1 : (1 : ℤ) ≤ s' := le_max_left 1 (min s T)
  have he'1 : (1 : ℤ) ≤ e' := le_max_left 1 (min e T)
  have he'T : e' ≤ T := max_le hT (min_le_right e T)
  set a : ℤ := if s' > e' then 0 else e' - s' + 1 with ha
  have h0 : 0 ≤ a := by
    rw [ha]; split_ifs with h <;> omega
  have haT : a ≤ T := by
    rw [ha]; split_ifs with h <;> omega
  rw [if_pos hT]
  constructor
  · apply pyRound_nonneg
    apply div_nonneg
    · exact_mod_cast h0
    · exact_mod_cast le_of_lt hT
  · apply pyRound_le_one
    rw [div_le_one (by exact_mod_cast hT)]
    exact_mod_cast haT


lemma pyRound_ratio_bounds {a T : ℤ} (h0 : 0 ≤ a) (haT : a ≤ T) (hT : 0 < T) :
    0 ≤ pyRound ((a : ℚ) / (T : ℚ)) 6 ∧ pyRound ((a : ℚ) / (T : ℚ)) 6 ≤ 1 := by
  constructor
  · apply pyRound_nonneg
    apply div_nonneg
    · exact_mod_cast h0
    · exact_mod_cast le_of_lt hT
  · apply pyRound_le_one
    rw [div_le_one (by exact_mod_cast hT)]
    exact_mod_cast haT


lemma sdate_start_in_month {y m T : Nat} {s : SDate}
    (h1 : SDate.ltB ⟨y, m, 1⟩ s = true)
    (h2 : ¬ SDate.ltB ⟨y, m, T⟩ s = true) :
    s.year = y ∧ s.month = m ∧ 1 < s.day ∧ s.day ≤ T := by
  rw [SDate.ltB_iff] at h1 h2
  dsimp at h1 h2
  omega

lemma sdate_end_in_month {y m T : Nat} {e : SDate}
    (h1 : ¬ SDate.ltB e ⟨y, m, 1⟩ = true)
    (h2 : SDate.ltB e ⟨y, m, T⟩ = true) :
    e.year = y ∧ e.month = m ∧ 1 ≤ e.day ∧ e.day < T := by
  rw [SDate.ltB_iff] at h1 h2
  dsimp at h1 h2
  omega

lemma auto_calculate_pro_rata_bounds (contracts : List HBContract)
    (contract_seq : Nat) (billing_cycle : String)
    (hcon : ∀ c ∈ contracts, ∀ s e, c.contract_start_date = some s →
      c.contract_end_date = some e → SDate.leB s e = true) :
    ∀ r, auto_calculate_pro_rata contracts contract_seq billing_cycle = some r →
      0 ≤ r.ratio ∧ r.ratio ≤ 1 := by
  intro r hr
  unfold auto_calculate_pro_rata at hr
  cases hfind : contracts.find? (fun c => c.seq == contract_seq) with
  | none => rw [hfind] at hr; exact absurd hr (by simp)
  | some contract =>
    rw [hfind] at hr
    have hmem : contract ∈ contracts := List.mem_of_find?_eq_some hfind
    set yn := cycleYear billing_cycle with hyn
    set mn := cycleMonth billing_cycle with hmn
    have hTpos : (0 : ℤ) < (daysInMonth yn mn : ℤ) := by
      exact_mod_cast daysInMonth_pos yn mn
    dsimp only at hr
    rcases hsd : contract.contract_start_date with _ | s <;>
      rcases hed : contract.contract_end_date with _ | e <;>
      rw [hsd, hed] at hr <;> dsimp only at hr
    · -- no start, no end: the full-month branch returns none
      rw [if_neg (show ¬ ((false : Bool) = true) by simp),
          if_neg (show ¬ ((false : Bool) = true) by simp),
          if_pos (show (((1:ℤ) == 1 &&
            ((daysInMonth yn mn : ℤ) == (daysInMonth yn mn : ℤ))) = true) by simp)]
        at hr
      exact absurd hr (by simp)
    · -- no start, end present
      rw [if_neg (show ¬ ((false : Bool) = true) by simp)] at hr
      by_cases hc2 : SDate.ltB e ⟨yn, mn, 1⟩ = true
      · rw [if_pos hc2] at hr
        injection hr with h
        subst h
        exact ⟨by norm_num, by norm_num⟩
      · rw [if_neg hc2] at hr
        by_cases hend : SDate.ltB e ⟨yn, mn, daysInMonth yn mn⟩ = true
        · simp only [if_pos hend] at hr
          split_ifs at hr with hfull
          injection hr with h
          subst h
          obtain ⟨_, _, hd1, hdT⟩ := sdate_end_in_month hc2 hend
          exact pyRound_ratio_bounds (by omega) (by omega) hTpos
        · simp only [if_neg hend] at hr
          split_ifs at hr with hfull
          exact absurd (show (((1:ℤ) == 1 &&
            ((daysInMonth yn mn : ℤ) == (daysInMonth yn mn : ℤ))) = true) by simp)
            hfull
    · -- start present, no end
      by_cases hc1 : SDate.ltB ⟨yn, mn, daysInMonth yn mn⟩ s = true
      · rw [if_pos hc1] at hr
        injection hr with h
        subst h
        exact ⟨by norm_num, by norm_num⟩
      · rw [if_neg hc1, if_neg (show ¬ ((false : Bool) = true) by simp)] at hr
        by_cases hstart : SDate.ltB ⟨yn, mn, 1⟩ s = true
        · simp only [if_pos hstart] at hr
          split_ifs at hr with hfull
          injection hr with h
          subst h
          obtain ⟨_, _, hd1, hdT⟩ := sdate_start_in_month hstart hc1
          exact pyRound_ratio_bounds (by omega) (by omega) hTpos
        · simp only [if_neg hstart] at hr
          split_ifs at hr with hfull
          exact absurd (show (((1:ℤ) == 1 &&
            ((daysInMonth yn mn : ℤ) == (daysInMonth yn mn : ℤ))) = true) by simp)
            hfull
    · -- both start and end present
      have hse : SDate.leB s e = true := hcon contract hmem s e hsd hed
      by_cases hc1 : SDate.ltB ⟨yn, mn, daysInMonth yn mn⟩ s = true
      · rw [if_pos hc1] at hr
        injection hr with h
        subst h
        exact ⟨by norm_num, by norm_num⟩
      · rw [if_neg hc1] at hr
        by_cases hc2 : SDate.ltB e ⟨yn, mn, 1⟩ = true
        · rw [if_pos hc2] at hr
          injection hr with h
          subst h
          exact ⟨by norm_num, by norm_num⟩
        · rw [if_neg hc2] at hr
          by_cases hstart : SDate.ltB ⟨yn, mn, 1⟩ s = true <;>
            by_cases hend : SDate.ltB e ⟨yn, mn, daysInMonth yn mn⟩ = true
          · simp only [if_pos hstart, if_pos hend] at hr
            split_ifs at hr with hfull
            injection hr with h
            subst h
            obtain ⟨hsy, hsm, hs1, hsT⟩ := sdate_start_in_month hstart hc1
            obtain ⟨hey, hem, he1, heT⟩ := sdate_end_in_month hc2 hend
            have hsde : s.day ≤ e.day := by
              rw [SDate.leB_iff] at hse
              omega
            exact pyRound_ratio_bounds (by omega) (by omega) hTpos
          · simp only [if_pos hstart, if_neg hend] at hr
            split_ifs at hr with hfull
            injection hr with h
            subst h
            obtain ⟨hsy, hsm, hs1, hsT⟩ := sdate_start_in_month hstart hc1
            exact pyRound_ratio_bounds (by omega) (by omega) hTpos
          · simp only [if_neg hstart, if_pos hend] at hr
            split_ifs at hr with hfull
            injection hr with h
            subst h
            obtain ⟨hey, hem, he1, heT⟩ := sdate_end_in_month hc2 hend
            exact pyRound_ratio_bounds (by omega) (by omega) hTpos
          · simp only [if_neg hstart, if_neg hend] at hr
            split_ifs at hr with hfull
            exact absurd (show (((1:ℤ) == 1 &&
              ((daysInMonth yn mn : ℤ) == (daysInMonth yn mn : ℤ))) = true) by simp)
              hfull

/-- C5 (amended): `get_pro_rata_ratio` returns `none` or a ratio in
`[0, 1]`, provided the looked-up contract's start date is not after its end
date (when both are set) and any manually registered period stores a ratio
in `[0, 1]` (which the registration endpoints guarantee, since they always
store the output of `calculate_pro_rata_ratio` — whose result is proved to
lie in `[0, 1]` unconditionally in the second conjunct). -/
theorem pro_rata_ratio_in_unit_interval (periods : List ProRataPeriod)
    (contracts : List HBContract) (contract_seq : Nat) (billing_cycle : String)
    (pro_rata_enabled : Bool) (pro_rata_override : Option String)
    (hper : ∀ p ∈ periods, 0 ≤ p.ratio ∧ p.ratio ≤ 1)
    (hcon : ∀ c ∈ contracts, ∀ s e, c.contract_start_date = some s →
      c.contract_end_date = some e → SDate.leB s e = true) :
    (∀ q, get_pro_rata_ratio periods contracts contract_seq billing_cycle
        pro_rata_enabled pro_rata_override = some q → 0 ≤ q ∧ q ≤ 1) ∧
      ∀ (cycle : String) (sd ed : Int),
        0 ≤ (calculate_pro_rata_ratio cycle sd ed).ratio ∧
          (calculate_pro_rata_ratio cycle sd ed).ratio ≤ 1 := by
  constructor
  · intro q hq
    unfold get_pro_rata_ratio at hq
    split_ifs at hq with ho1 ho2
    rcases hfindp : periods.find? (fun p =>
        p.contract_seq == contract_seq && p.billing_cycle == billing_cycle)
      with _ | p
    · rw [hfindp] at hq
      cases hauto : auto_calculate_pro_rata contracts contract_seq billing_cycle with
      | none => rw [hauto] at hq; exact absurd hq (by simp)
      | some r =>
        rw [hauto] at hq
        dsimp only at hq
        split_ifs at hq with hlt
        injection hq with h
        subst h
        exact auto_calculate_pro_rata_bounds contracts contract_seq
          billing_cycle hcon r hauto
    · rw [hfindp] at hq
      dsimp only at hq
      split_ifs at hq with hlt
      injection hq with h
      subst h
      exact hper p (List.mem_of_find?_eq_some hfindp)
  · intro cycle sd ed
    exact calculate_pro_rata_ratio_bounds cycle sd ed

/-- C5 (counterexample): the claim fails as stated.  For a contract whose
`contract_start_date` (2025-01-20) lies after its `contract_end_date`
(2025-01-10) — nothing in the code prevents such a row — the automatic
computation clips both days into cycle `202501` without checking their
order, computes `active_days = 10 - 20 + 1 = -9`, and `get_pro_rata_ratio`
returns `round(-9/31, 6) = -0.290323 < 0`, outside `[0, 1]`. -/
theorem get_pro_rata_ratio_negative_counterexample :
    get_pro_rata_ratio []
        [{ seq := 7, contract_start_date := some ⟨2025, 1, 20⟩,
           contract_end_date := some ⟨2025, 1, 10⟩ }] 7 "202501" true none =
      some (-(290323 : ℚ) / 1000000) ∧ (-(290323 : ℚ) / 1000000) < 0 := by
  have hy : cycleYear "202501" = 2025 := by decide
  have hm : cycleMonth "202501" = 1 := by decide
  constructor
  · unfold get_pro_rata_ratio auto_calculate_pro_rata
    rw [hy, hm]
    norm_num [List.find?, daysInMonth, isLeapYear, SDate.ltB, pyRound,
      halfEvenInt, ratFloor_eq]
  · norm_num

/-- Witness for `pro_rata_ratio_in_unit_interval`: an empty manual-period
table and one contract starting mid-cycle (2025-01-15, no end date). -/
theorem pro_rata_ratio_in_unit_interval_witness :
    (∀ p ∈ ([] : List ProRataPeriod), 0 ≤ p.ratio ∧ p.ratio ≤ 1) ∧
      (∀ c ∈ [({ seq := 7, contract_start_date := some ⟨2025, 1, 15⟩,
                 contract_end_date := none } : HBContract)],
        ∀ s e, c.contract_start_date = some s → c.contract_end_date = some e →
          SDate.leB s e = true) ∧
      ((∀ q, get_pro_rata_ratio []
          [({ seq := 7, contract_start_date := some ⟨2025, 1, 15⟩,
              contract_end_date := none } : HBContract)] 7 "202501" true none =
            some q → 0 ≤ q ∧ q ≤ 1) ∧
        ∀ (cycle : String) (sd ed : Int),
          0 ≤ (calculate_pro_rata_ratio cycle sd ed).ratio ∧
            (calculate_pro_rata_ratio cycle sd ed).ratio ≤ 1) :=
  ⟨by simp,
   by
    intro c hc s e hs he
    rw [List.mem_singleton] at hc
    subst hc
    exact absurd he (by simp),
   pro_rata_ratio_in_unit_interval [] _ 7 "202501" true none (by simp)
    (by
      intro c hc s e hs he
      rw [List.mem_singleton] at hc
      subst hc
      exact absurd he (by simp))⟩

/-! ## Lemmas for the split billing allocator -/

lemma splitLoop_sum_eq (amt : ℚ) : ∀ (allocs : List SplitAlloc) (rtu : ℚ),
    (((splitLoop amt rtu allocs).1).map (·.allocated_amount_usd)).sum =
      rtu - (splitLoop amt rtu allocs).2 := by
  intro allocs
  induction allocs with
  | nil => intro rtu; simp [splitLoop]
  | cons a rest ih =>
    intro rtu
    unfold splitLoop
    by_cases hle : rtu ≤ 0
    · rw [if_pos hle]; simp
    · rw [if_neg hle]
      dsimp only
      set A := (if a.split_type == "fixed_amount" then min a.split_value rtu
        else min (round_decimal (amt * a.split_value / 100) 2) rtu) with hA
      rw [List.map_cons, List.sum_cons]
      dsimp only
      have h2 := ih (rtu - A)
      linarith

lemma splitLoop_rem_nonneg (amt : ℚ) : ∀ (allocs : List SplitAlloc) (rtu : ℚ),
    0 ≤ rtu → 0 ≤ (splitLoop amt rtu allocs).2 := by
  intro allocs
  induction allocs with
  | nil => intro rtu h; simpa [splitLoop] using h
  | cons a rest ih =>
    intro rtu h
    unfold splitLoop
    by_cases hle : rtu ≤ 0
    · rw [if_pos hle]; simpa using h
    · rw [if_neg hle]
      dsimp only
      apply ih
      have hAle : (if a.split_type == "fixed_amount" then min a.split_value rtu
          else min (round_decimal (amt * a.split_value / 100) 2) rtu) ≤ rtu := by
        split_ifs <;> exact min_le_right _ _
      linarith

lemma splitLoop_ids_pfx (amt : ℚ) : ∀ (allocs : List SplitAlloc) (rtu : ℚ),
    (((splitLoop amt rtu allocs).1).map (·.allocation_id)) <+:
      (allocs.map (·.id)) := by
  intro allocs
  induction allocs with
  | nil => intro rtu; simp [splitLoop]
  | cons a rest ih =>
    intro rtu
    unfold splitLoop
    by_cases hle : rtu ≤ 0
    · rw [if_pos hle]; simp
    · rw [if_neg hle]
      dsimp only
      rw [List.map_cons, List.map_cons]
      obtain ⟨t, ht⟩ := ih (rtu - (if a.split_type == "fixed_amount" then
        min a.split_value rtu
        else min (round_decimal (amt * a.split_value / 100) 2) rtu))
      exact ⟨t, by rw [List.cons_append, ht]⟩

lemma splitLoop_entry_spec (amt : ℚ) : ∀ (allocs : List SplitAlloc) (rtu : ℚ)
    (i : Nat) (e : SplitResultEntry),
    ((splitLoop amt rtu allocs).1).get? i = some e →
    0 < rtu - ((((splitLoop amt rtu allocs).1).take i).map
        (·.allocated_amount_usd)).sum ∧
      e.allocated_amount_usd =
        (if e.split_type == "fixed_amount" then
          min e.split_value
            (rtu - ((((splitLoop amt rtu allocs).1).take i).map
              (·.allocated_amount_usd)).sum)
        else
          min (round_decimal (amt * e.split_value / 100) 2)
            (rtu - ((((splitLoop amt rtu allocs).1).take i).map
              (·.allocated_amount_usd)).sum)) := by
  intro allocs
  induction allocs with
  | nil => intro rtu i e he; simp [splitLoop] at he
  | cons a rest ih =>
    intro rtu i e he
    unfold splitLoop at he ⊢
    by_cases hle : rtu ≤ 0
    · rw [if_pos hle] at he; simp at he
    · rw [if_neg hle] at he ⊢
      dsimp only at he ⊢
      set A := (if a.split_type == "fixed_amount" then min a.split_value rtu
        else min (round_decimal (amt * a.split_value / 100) 2) rtu) with hA
      push_neg at hle
      cases i with
      | zero =>
        rw [List.get?_cons_zero] at he
        injection he with he'
        subst he'
        constructor
        · simpa using hle
        · simp only [List.take_zero, List.map_nil, List.sum_nil, sub_zero]
      | succ j =>
        rw [List.get?_cons_succ] at he
        obtain ⟨h1, h2⟩ := ih (rtu - A) j e he
        constructor
        · rw [List.take_succ_cons, List.map_cons, List.sum_cons]
          dsimp only
          rw [sub_add_eq_sub_sub]
          exact h1
        · rw [List.take_succ_cons, List.map_cons, List.sum_cons]
          dsimp only
          rw [sub_add_eq_sub_sub]
          exact h2

/-- C6: for every split rule and source amount (amounts are nonnegative —
the assembler skips non-positive usage totals), a successful
`calculate_split_amounts` processes the rule's allocations in
`(priority, id)` order (the emitted entries follow a prefix of the sorted
allocation list, which is proved sorted); every entry was computed while
the unallocated remainder was still positive (processing stops at zero)
and receives `round_half_up(amount * percent / 100, 2)` capped at the
remainder for a percentage allocation, or its configured value capped at
the remainder for a fixed-amount allocation; the allocated total never
exceeds the source amount (and the reported remainder is nonnegative).
Moreover `create_split_rule` only ever succeeds when the payload's
percentage allocations sum to at most 100%. -/
theorem calculate_split_amounts_spec (rules : List SplitRule)
    (allocs : List SplitAlloc) (uid : String) (amt : ℚ) (cycle : String)
    (res : SplitOutcome) (rule : SplitRule)
    (hamt : 0 ≤ amt)
    (hfind : rules.find? (fun r =>
      r.source_account_id == uid && r.is_active) = some rule)
    (hres : calculate_split_amounts rules allocs uid amt cycle = some res) :
    ((res.allocations.map (·.allocation_id)) <+:
        ((List.insertionSort allocOrder (ruleAllocations allocs rule)).map
          (·.id))) ∧
      List.Sorted allocOrder
        (List.insertionSort allocOrder (ruleAllocations allocs rule)) ∧
      (∀ i e, res.allocations.get? i = some e →
        0 < amt - (((res.allocations.take i).map (·.allocated_amount_usd)).sum) ∧
          e.allocated_amount_usd =
            (if e.split_type == "fixed_amount" then
              min e.split_value
                (amt - (((res.allocations.take i).map
                  (·.allocated_amount_usd)).sum))
            else
              min (round_decimal (amt * e.split_value / 100) 2)
                (amt - (((res.allocations.take i).map
                  (·.allocated_amount_usd)).sum)))) ∧
      ((res.allocations.map (·.allocated_amount_usd)).sum ≤ amt) ∧
      0 ≤ res.remaining ∧
      ∀ (accountIds : List String) (contractSeqs companySeqs : List Nat)
        (rules0 : List SplitRule) (allocs0 : List SplitAlloc)
        (nid fid : Nat) (data : SplitRuleCreate) out,
        create_split_rule accountIds contractSeqs companySeqs rules0 allocs0
          nid fid data = .ok out →
        totalPercentage data.allocations ≤ 100 := by
  unfold calculate_split_amounts at hres
  rw [hfind] at hres
  dsimp only at hres
  split_ifs at hres with hw1 hw2
  injection hres with h
  subst h
  dsimp only
  have hrem : 0 ≤ (splitLoop amt amt
      (List.insertionSort allocOrder (ruleAllocations allocs rule))).2 :=
    splitLoop_rem_nonneg amt _ amt hamt
  refine ⟨splitLoop_ids_pfx amt _ amt,
    List.sorted_insertionSort allocOrder _,
    fun i e he => splitLoop_entry_spec amt _ amt i e he,
    ?_, ?_, ?_⟩
  · rw [splitLoop_sum_eq amt _ amt]
    linarith
  · have htr : (0 : ℤ) ≤ truncInt ((splitLoop amt amt
        (List.insertionSort allocOrder (ruleAllocations allocs rule))).2
          * 100) := by
      unfold truncInt
      rw [if_pos (by positivity)]
      rw [ratFloor_eq]
      exact Int.floor_nonneg.mpr (by positivity)
    positivity
  · intro accountIds contractSeqs companySeqs rules0 allocs0 nid fid data out h
    unfold create_split_rule at h
    split_ifs at h with g1 g2 g3 g4
    push_neg at g4
    linarith

/-- Witness for `calculate_split_amounts_spec`: the 60%/40% rule of the
spec's scenario applied to 1000.00 USD (600.00 + 400.00 allocated,
remainder 0). -/
theorem calculate_split_amounts_spec_witness :
    (0 : ℚ) ≤ 1000 ∧
      ([({ id := 1, source_account_id := "uid1", source_contract_seq := 7,
           name := "r", is_active := true, effective_from := none,
           effective_to := none } : SplitRule)].find? (fun r =>
        r.source_account_id == "uid1" && r.is_active) =
        some { id := 1, source_account_id := "uid1", source_contract_seq := 7,
               name := "r", is_active := true, effective_from := none,
               effective_to := none }) ∧
      calculate_split_amounts
          [{ id := 1, source_account_id := "uid1", source_contract_seq := 7,
             name := "r", is_active := true, effective_from := none,
             effective_to := none }]
          [{ id := 1, rule_id := 1, target_company_seq := 10,
             split_type := "percentage", split_value := 60, priority := 1,
             note := none },
           { id := 2, rule_id := 1, target_company_seq := 20,
             split_type := "percentage", split_value := 40, priority := 2,
             note := none }] "uid1" 1000 "202501" =
        some { rule_id := 1,
               allocations :=
                 [{ allocation_id := 1, target_company_seq := 10,
                    split_type := "percentage", split_value := 60,
                    allocated_amount_usd := 600 },
                  { allocation_id := 2, target_company_seq := 20,
                    split_type := "percentage", split_value := 40,
                    allocated_amount_usd := 400 }],
               remaining := 0 } ∧
      (([{ allocation_id := 1, target_company_seq := 10,
           split_type := "percentage", split_value := 60,
           allocated_amount_usd := 600 },
         { allocation_id := 2, target_company_seq := 20,
           split_type := "percentage", split_value := 40,
           allocated_amount_usd := (400 : ℚ) }].map
            (SplitResultEntry.allocated_amount_usd)).sum ≤ (1000 : ℚ)) := by
  have hfind : ([({ id := 1, source_account_id := "uid1",
                    source_contract_seq := 7, name := "r", is_active := true,
                    effective_from := none,
                    effective_to := none } : SplitRule)].find?
        (fun r => r.source_account_id == "uid1" && r.is_active) =
      some { id := 1, source_account_id := "uid1", source_contract_seq := 7,
             name := "r", is_active := true, effective_from := none,
             effective_to := none }) := by decide
  have hres : calculate_split_amounts
      [{ id := 1, source_account_id := "uid1", source_contract_seq := 7,
         name := "r", is_active := true, effective_from := none,
         effective_to := none }]
      [{ id := 1, rule_id := 1, target_company_seq := 10,
         split_type := "percentage", split_value := 60, priority := 1,
         note := none },
       { id := 2, rule_id := 1, target_company_seq := 20,
         split_type := "percentage", split_value := 40, priority := 2,
         note := none }] "uid1" 1000 "202501" =
      some { rule_id := 1,
             allocations :=
               [{ allocation_id := 1, target_company_seq := 10,
                  split_type := "percentage", split_value := 60,
                  allocated_amount_usd := 600 },
                { allocation_id := 2, target_company_seq := 20,
                  split_type := "percentage", split_value := 40,
                  allocated_amount_usd := 400 }],
             remaining := 0 } := by
    norm_num [calculate_split_amounts, ruleAllocations, splitLoop,
      List.insertionSort, List.orderedInsert, allocOrder, List.find?,
      round_decimal, halfUpInt, ratFloor_eq, truncInt,
      (by decide : ¬ (("percentage" : String) = "fixed_amount"))]
  exact ⟨by norm_num, hfind, hres,
    ((calculate_split_amounts_spec _ _ "uid1" 1000 "202501" _ _
      (by norm_num) hfind hres).2.2.2.1)⟩

/-! ## Lemmas and claim theorems for slip confirmation/deletion guards -/

/-- C8: (1) a field edit on a confirmed slip row is rejected; (2) a batch
cannot be confirmed while any of its rows lacks a resolved partner code
(`partner` of `None` or `""`); (3) a batch containing any confirmed row
cannot be deleted. -/
theorem slip_confirmation_guards (bps : List BPCode) (slips : List SlipRecord)
    (deposits : List Deposit) (usages : List DepositUsage) (batch_id : String)
    (slip : SlipRecord) (data : SlipUpdate) :
    (slip.is_confirmed = true →
      update_slip bps slip data = .error "Cannot modify confirmed slip") ∧
      (∀ s ∈ slips, s.batch_id = batch_id → partnerMissing s.partner = true →
        confirm_slips slips batch_id =
          .error "Cannot confirm: slips without BP mapping") ∧
      ∀ s ∈ slips, s.batch_id = batch_id → s.is_confirmed = true →
        delete_batch slips deposits usages batch_id =
          .error "Cannot delete: slips are confirmed" := by
  refine ⟨?_, ?_, ?_⟩
  · intro h
    unfold update_slip
    rw [if_pos h]
  · intro s hs hb hmiss
    have hmem : s ∈ slips.filter (fun x => x.batch_id == batch_id) :=
      List.mem_filter.mpr ⟨hs, by simp [hb]⟩
    have hne : slips.filter (fun x => x.batch_id == batch_id) ≠ [] :=
      List.ne_nil_of_mem hmem
    have hne2 : (slips.filter (fun x => x.batch_id == batch_id)).filter
        (fun x => partnerMissing x.partner) ≠ [] :=
      List.ne_nil_of_mem (List.mem_filter.mpr ⟨hmem, hmiss⟩)
    unfold confirm_slips
    rw [if_neg (by simp [List.isEmpty_iff, hne]),
        if_pos (by simp [List.isEmpty_iff]; exact ⟨s, hs, hmiss, hb⟩)]
  · intro s hs hb hconf
    have hmem : s ∈ slips.filter (fun x => x.batch_id == batch_id) :=
      List.mem_filter.mpr ⟨hs, by simp [hb]⟩
    have hne : slips.filter (fun x => x.batch_id == batch_id) ≠ [] :=
      List.ne_nil_of_mem hmem
    have hne2 : (slips.filter (fun x => x.batch_id == batch_id)).filter
        (fun x => x.is_confirmed) ≠ [] :=
      List.ne_nil_of_mem (List.mem_filter.mpr ⟨hmem, hconf⟩)
    unfold delete_batch
    rw [if_neg (by simp [List.isEmpty_iff, hne]),
        if_pos (by simp [List.isEmpty_iff]; exact ⟨s, hs, hconf, hb⟩)]

/-- Witness for `slip_confirmation_guards`: a one-row batch `"b"` whose row
is confirmed and has no partner code. -/
theorem slip_confirmation_guards_witness :
    update_slip []
        { id := 1, batch_id := "b", partner := none, partner_name := none,
          zzcon := none, ar_account := none, wrbtr := 0, dmbtr_c := none,
          exchange_rate := none, zzsempnm := none, zzinvno := none,
          is_confirmed := true } {} =
      .error "Cannot modify confirmed slip" ∧
      confirm_slips
          [{ id := 1, batch_id := "b", partner := none, partner_name := none,
             zzcon := none, ar_account := none, wrbtr := 0, dmbtr_c := none,
             exchange_rate := none, zzsempnm := none, zzinvno := none,
             is_confirmed := true }] "b" =
        .error "Cannot confirm: slips without BP mapping" ∧
      delete_batch
          [{ id := 1, batch_id := "b", partner := none, partner_name := none,
             zzcon := none, ar_account := none, wrbtr := 0, dmbtr_c := none,
             exchange_rate := none, zzsempnm := none, zzinvno := none,
             is_confirmed := true }] [] [] "b" =
        .error "Cannot delete: slips are confirmed" := by
  obtain ⟨h1, h2, h3⟩ := slip_confirmation_guards []
    [{ id := 1, batch_id := "b", partner := none, partner_name := none,
       zzcon := none, ar_account := none, wrbtr := 0, dmbtr_c := none,
       exchange_rate := none, zzsempnm := none, zzinvno := none,
       is_confirmed := true }] [] [] "b"
    { id := 1, batch_id := "b", partner := none, partner_name := none,
      zzcon := none, ar_account := none, wrbtr := 0, dmbtr_c := none,
      exchange_rate := none, zzsempnm := none, zzinvno := none,
      is_confirmed := true } {}
  exact ⟨h1 rfl,
    h2 { id := 1, batch_id := "b", partner := none, partner_name := none,
         zzcon := none, ar_account := none, wrbtr := 0, dmbtr_c := none,
         exchange_rate := none, zzsempnm := none, zzinvno := none,
         is_confirmed := true } (by simp) rfl rfl,
    h3 { id := 1, batch_id := "b", partner := none, partner_name := none,
         zzcon := none, ar_account := none, wrbtr := 0, dmbtr_c := none,
         exchange_rate := none, zzsempnm := none, zzinvno := none,
         is_confirmed := true } (by simp) rfl rfl⟩

/-! ## Lemmas for the deposit FIFO consumption loop -/

lemma fifoStep_sum (ctx : FifoCtx) : ∀ (ds : List Deposit) (rtu : ℚ),
    0 ≤ rtu → (∀ d ∈ ds, 0 ≤ d.remaining_amount) →
    (((fifoStep ctx rtu ds).2).map (·.amount)).sum =
      min rtu ((ds.map (·.remaining_amount)).sum) := by
  intro ds
  induction ds with
  | nil =>
    intro rtu h _
    simp only [fifoStep, List.map_nil, List.sum_nil]
    exact (min_eq_right h).symm
  | cons d ds' ih =>
    intro rtu hrtu hrem
    have hd0 : 0 ≤ d.remaining_amount := hrem d (List.mem_cons_self d ds')
    have hS' : 0 ≤ ((ds'.map (·.remaining_amount)).sum) := by
      apply List.sum_nonneg
      intro x hx
      obtain ⟨y, hy, rfl⟩ := List.mem_map.mp hx
      exact hrem y (List.mem_cons_of_mem d hy)
    unfold fifoStep
    by_cases hle : rtu ≤ 0
    · rw [if_pos hle]
      have hz : rtu = 0 := le_antisymm hle hrtu
      subst hz
      simp only [List.map_nil, List.sum_nil, List.map_cons, List.sum_cons]
      exact (min_eq_left (by linarith)).symm
    · rw [if_neg hle]
      dsimp only
      push_neg at hle
      set use := min rtu d.remaining_amount with huse
      have husele : use ≤ rtu := min_le_left rtu d.remaining_amount
      rw [List.map_cons, List.sum_cons]
      dsimp only
      rw [ih (rtu - use) (by linarith)
        (fun x hx => hrem x (List.mem_cons_of_mem d hx))]
      rw [List.map_cons, List.sum_cons]
      rcases le_total rtu d.remaining_amount with hc | hc
      · rw [show use = rtu from min_eq_left hc, sub_self, min_eq_left hS',
          min_eq_left (by linarith)]
        ring
      · rw [show use = d.remaining_amount from min_eq_right hc]
        rcases le_total (rtu - d.remaining_amount)
            ((ds'.map (·.remaining_amount)).sum) with h2 | h2
        · rw [min_eq_left h2, min_eq_left (by linarith)]
          ring
        · rw [min_eq_right h2, min_eq_right (by linarith)]

lemma fifoStep_ids (ctx : FifoCtx) : ∀ (ds : List Deposit) (rtu : ℚ),
    ((fifoStep ctx rtu ds).1).map (·.id) = ds.map (·.id) := by
  intro ds
  induction ds with
  | nil => intro rtu; simp [fifoStep]
  | cons d ds' ih =>
    intro rtu
    unfold fifoStep
    by_cases hle : rtu ≤ 0
    · rw [if_pos hle]
    · rw [if_neg hle]
      dsimp only
      rw [List.map_cons, List.map_cons, ih]

lemma fifoStep_usage_ids_pfx (ctx : FifoCtx) :
    ∀ (ds : List Deposit) (rtu : ℚ),
    ((fifoStep ctx rtu ds).2).map (·.deposit_id) <+: ds.map (·.id) := by
  intro ds
  induction ds with
  | nil => intro rtu; simp [fifoStep]
  | cons d ds' ih =>
    intro rtu
    unfold fifoStep
    by_cases hle : rtu ≤ 0
    · rw [if_pos hle]; simp
    · rw [if_neg hle]
      dsimp only
      rw [List.map_cons, List.map_cons]
      obtain ⟨t, ht⟩ := ih (rtu - min rtu d.remaining_amount)
      exact ⟨t, by rw [List.cons_append, ht]⟩

lemma fifoStep_usage_spec (ctx : FifoCtx) : ∀ (ds : List Deposit) (rtu : ℚ)
    (i : Nat) (u : DepositUsage) (d : Deposit),
    ((fifoStep ctx rtu ds).2).get? i = some u → ds.get? i = some d →
    u.deposit_id = d.id ∧
      0 < rtu - ((((fifoStep ctx rtu ds).2).take i).map (·.amount)).sum ∧
      u.amount = min
        (rtu - ((((fifoStep ctx rtu ds).2).take i).map (·.amount)).sum)
        d.remaining_amount := by
  intro ds
  induction ds with
  | nil => intro rtu i u d hu hd; simp [fifoStep] at hu
  | cons d0 ds' ih =>
    intro rtu i u d hu hd
    unfold fifoStep at hu ⊢
    by_cases hle : rtu ≤ 0
    · rw [if_pos hle] at hu; simp at hu
    · rw [if_neg hle] at hu ⊢
      dsimp only at hu ⊢
      push_neg at hle
      cases i with
      | zero =>
        rw [List.get?_cons_zero] at hu hd
        injection hu with hu'
        injection hd with hd'
        subst hu'
        subst hd'
        simp only [List.take_zero, List.map_nil, List.sum_nil, sub_zero]
        exact ⟨trivial, hle, trivial⟩
      | succ j =>
        rw [List.get?_cons_succ] at hu hd
        obtain ⟨h1, h2, h3⟩ := ih (rtu - min rtu d0.remaining_amount) j u d hu hd
        refine ⟨h1, ?_, ?_⟩
        · rw [List.take_succ_cons, List.map_cons, List.sum_cons]
          dsimp only
          rw [sub_add_eq_sub_sub]
          exact h2
        · rw [List.take_succ_cons, List.map_cons, List.sum_cons]
          dsimp only
          rw [sub_add_eq_sub_sub]
          exact h3

lemma fifoStep_inv (ctx : FifoCtx) : ∀ (ds : List Deposit) (rtu : ℚ),
    (∀ d ∈ ds, depositInv d) →
    ∀ x ∈ (fifoStep ctx rtu ds).1, depositInv x := by
  intro ds
  induction ds with
  | nil => intro rtu _ x hx; simp [fifoStep] at hx
  | cons d ds' ih =>
    intro rtu hinv x hx
    unfold fifoStep at hx
    by_cases hle : rtu ≤ 0
    · rw [if_pos hle] at hx
      exact hinv x hx
    · rw [if_neg hle] at hx
      dsimp only at hx
      push_neg at hle
      rcases List.mem_cons.mp hx with hx | hx
      · subst hx
        obtain ⟨h0, h1, h2⟩ := hinv d (List.mem_cons_self d ds')
        have huse0 : 0 ≤ min rtu d.remaining_amount := le_min (by linarith) h0
        have husele : min rtu d.remaining_amount ≤ d.remaining_amount :=
          min_le_right rtu d.remaining_amount
        by_cases hz : d.remaining_amount - min rtu d.remaining_amount ≤ 0
        · unfold depositInv
          dsimp only
          simp only [if_pos hz]
          exact ⟨le_refl 0, h0.trans h1, by simp⟩
        · unfold depositInv
          dsimp only
          simp only [if_neg hz]
          push_neg at hz
          refine ⟨by linarith, by linarith, ?_⟩
          have hdpos : d.remaining_amount ≠ 0 := by
            intro hcon2
            rw [hcon2, min_eq_right (le_of_lt hle)] at hz
            linarith
          have hexh : d.is_exhausted = false := by
            rcases Bool.eq_false_or_eq_true d.is_exhausted with h | h
            · exact absurd (h2.mp h) hdpos
            · exact h
          rw [hexh]
          constructor
          · intro hfalse; exact absurd hfalse (by simp)
          · intro hzero
            rw [hzero] at hz
            exact absurd hz (lt_irrefl 0)
      · exact ih (rtu - min rtu d.remaining_amount)
          (fun y hy => hinv y (List.mem_cons_of_mem d hy)) x hx

/-! ## Lemmas for the deposit-usage reversal of `delete_batch` -/

lemma restoreUsage_of_not_mem (u : DepositUsage) : ∀ (l : List Deposit),
    (∀ d ∈ l, d.id ≠ u.deposit_id) → restoreUsage l u = l := by
  intro l
  induction l with
  | nil => intro _; rfl
  | cons d l' ih =>
    intro h
    unfold restoreUsage
    rw [if_neg (by simp [h d (List.mem_cons_self d l')])]
    rw [ih (fun x hx => h x (List.mem_cons_of_mem d hx))]

lemma restoreUsage_ids (u : DepositUsage) : ∀ (l : List Deposit),
    (restoreUsage l u).map (·.id) = l.map (·.id) := by
  intro l
  induction l with
  | nil => rfl
  | cons d l' ih =>
    unfold restoreUsage
    by_cases h : (d.id == u.deposit_id) = true
    · rw [if_pos h]
      simp
    · rw [if_neg h]
      rw [List.map_cons, List.map_cons, ih]

lemma foldl_restore_cons (x : Deposit) : ∀ (us : List DepositUsage)
    (l : List Deposit), (∀ u ∈ us, u.deposit_id ≠ x.id) →
    us.foldl restoreUsage (x :: l) = x :: us.foldl restoreUsage l := by
  intro us
  induction us with
  | nil => intro l _; rfl
  | cons u us' ih =>
    intro l h
    rw [List.foldl_cons, List.foldl_cons]
    have hx : restoreUsage (x :: l) u = x :: restoreUsage l u := by
      unfold restoreUsage
      rw [if_neg (by simp; exact fun hc =>
        (h u (List.mem_cons_self u us')) hc.symm)]
      cases l <;> rfl
    rw [hx, ih (restoreUsage l u)
      (fun v hv => h v (List.mem_cons_of_mem u hv))]

lemma fifoStep_reverse (ctx : FifoCtx) : ∀ (ds : List Deposit) (rtu : ℚ),
    (∀ d ∈ ds, d.is_exhausted = false) → ((ds.map (·.id)).Nodup) →
    ((fifoStep ctx rtu ds).2).foldl restoreUsage ((fifoStep ctx rtu ds).1) =
      ds := by
  intro ds
  induction ds with
  | nil => intro rtu _ _; simp [fifoStep]
  | cons d ds' ih =>
    intro rtu hexh hnd
    unfold fifoStep
    by_cases hle : rtu ≤ 0
    · rw [if_pos hle]
      rfl
    · rw [if_neg hle]
      dsimp only
      push_neg at hle
      set use := min rtu d.remaining_amount with huse
      rw [List.foldl_cons]
      have hstep1 : restoreUsage
          ({ d with
             remaining_amount :=
               if d.remaining_amount - use ≤ 0 then 0
               else d.remaining_amount - use,
             is_exhausted :=
               if d.remaining_amount - use ≤ 0 then true
               else d.is_exhausted } ::
            (fifoStep ctx (rtu - use) ds').1)
          { deposit_id := d.id, usage_date := ctx.usage_date, amount := use,
            amount_krw :=
              if d.currency ≠ "KRW" ∧ rateTruthy d.exchange_rate then
                some (round_decimal (use * ((d.exchange_rate).getD 0)) 0)
              else none,
            billing_cycle := ctx.billing_cycle,
            slip_batch_id := ctx.slip_batch_id,
            uid := ctx.uid, description := ctx.description } =
          d :: (fifoStep ctx (rtu - use) ds').1 := by
        unfold restoreUsage
        rw [if_pos (by simp)]
        congr 1
        have husele : use ≤ d.remaining_amount := min_le_right rtu d.remaining_amount
        have hexhd : d.is_exhausted = false := hexh d (List.mem_cons_self d ds')
        by_cases hz : d.remaining_amount - use ≤ 0
        · have : use = d.remaining_amount := le_antisymm husele (by linarith)
          rcases d with ⟨i1, p1, c1, dd1, a1, cu1, e1, r1, x1, rf1, de1⟩
          simp only [if_pos hz] at *
          simp [this, hexhd.symm]
        · rcases d with ⟨i1, p1, c1, dd1, a1, cu1, e1, r1, x1, rf1, de1⟩
          simp only [if_neg hz] at *
          simp [hexhd.symm]
      rw [hstep1]
      have hus_ne : ∀ u ∈ (fifoStep ctx (rtu - use) ds').2,
          u.deposit_id ≠ d.id := by
        intro u hu hcon
        have hmem : u.deposit_id ∈
            ((fifoStep ctx (rtu - use) ds').2).map (·.deposit_id) :=
          List.mem_map.mpr ⟨u, hu, rfl⟩
        have hsub : u.deposit_id ∈ ds'.map (·.id) :=
          (fifoStep_usage_ids_pfx ctx ds' (rtu - use)).sublist.mem hmem
        rw [hcon] at hsub
        rw [List.map_cons] at hnd
        exact (List.nodup_cons.mp hnd).1 hsub
      rw [foldl_restore_cons d _ _ hus_ne]
      rw [ih (rtu - use) (fun x hx => hexh x (List.mem_cons_of_mem d hx))
        (by rw [List.map_cons] at hnd; exact (List.nodup_cons.mp hnd).2)]

lemma restoreUsage_eq_map (u : DepositUsage) : ∀ (l : List Deposit),
    ((l.map (·.id)).Nodup) →
    restoreUsage l u = l.map (fun d =>
      if d.id == u.deposit_id then
        { d with remaining_amount := d.remaining_amount + u.amount,
                 is_exhausted := false }
      else d) := by
  intro l
  induction l with
  | nil => intro _; rfl
  | cons d l' ih =>
    intro hnd
    rw [List.map_cons] at hnd ⊢
    have hnd' := List.nodup_cons.mp hnd
    unfold restoreUsage
    by_cases h : (d.id == u.deposit_id) = true
    · rw [if_pos h, if_pos h]
      congr 1
      have hall : ∀ e ∈ l', (if (e.id == u.deposit_id) = true then
          { e with remaining_amount := e.remaining_amount + u.amount,
                   is_exhausted := false }
        else e) = e := by
        intro e he
        apply if_neg
        have hdu : d.id = u.deposit_id := by simpa using h
        intro hc
        have : e.id = d.id := by rw [hdu]; simpa using hc
        exact hnd'.1 (this ▸ List.mem_map.mpr ⟨e, he, rfl⟩)
      exact ((List.map_congr_left hall).trans (List.map_id l')).symm
    · rw [if_neg h, if_neg h]
      congr 1
      exact ih hnd'.2

lemma foldl_restoreOne_id : ∀ (us : List DepositUsage) (x : Deposit),
    (∀ u ∈ us, u.deposit_id ≠ x.id) →
    us.foldl (fun x u =>
      if x.id == u.deposit_id then
        { x with remaining_amount := x.remaining_amount + u.amount,
                 is_exhausted := false }
      else x) x = x := by
  intro us
  induction us with
  | nil => intro x _; rfl
  | cons u us' ih =>
    intro x h
    rw [List.foldl_cons]
    rw [if_neg (by simp; exact fun hc =>
      (h u (List.mem_cons_self u us')) hc.symm)]
    exact ih x (fun v hv => h v (List.mem_cons_of_mem u hv))

lemma foldl_restore_eq_map : ∀ (us : List DepositUsage) (l : List Deposit),
    ((l.map (·.id)).Nodup) →
    us.foldl restoreUsage l = l.map (fun d =>
      us.foldl (fun x u =>
        if x.id == u.deposit_id then
          { x with remaining_amount := x.remaining_amount + u.amount,
                   is_exhausted := false }
        else x) d) := by
  intro us
  induction us with
  | nil => intro l _; simp
  | cons u us' ih =>
    intro l hnd
    rw [List.foldl_cons]
    rw [restoreUsage_eq_map u l hnd]
    rw [ih (l.map (fun d =>
      if d.id == u.deposit_id then
        { d with remaining_amount := d.remaining_amount + u.amount,
                 is_exhausted := false }
      else d)) (by
        rw [← restoreUsage_eq_map u l hnd, restoreUsage_ids]
        exact hnd)]
    rw [List.map_map]
    rfl

lemma find?_by_id_get? : ∀ (l l' : List Deposit),
    l'.map (·.id) = l.map (·.id) → ((l.map (·.id)).Nodup) →
    ∀ (j : Nat) (d : Deposit), l.get? j = some d →
    ∃ e, l'.get? j = some e ∧
      l'.find? (fun x => x.id == d.id) = some e := by
  intro l
  induction l with
  | nil => intro l' _ _ j d hd; simp at hd
  | cons d0 l0 ih =>
    intro l' hmap hnd j d hd
    cases l' with
    | nil => simp at hmap
    | cons e0 l0' =>
      rw [List.map_cons, List.map_cons] at hmap
      injection hmap with h1 h2
      rw [List.map_cons] at hnd
      have hnd' := List.nodup_cons.mp hnd
      cases j with
      | zero =>
        rw [List.get?_cons_zero] at hd
        injection hd with hd0
        subst hd0
        refine ⟨e0, rfl, ?_⟩
        rw [List.find?_cons_of_pos _ (by simp [h1])]
      | succ j' =>
        rw [List.get?_cons_succ] at hd
        have hdmem : d ∈ l0 := List.get?_mem hd
        have hdid : d.id ∈ l0.map (·.id) := List.mem_map.mpr ⟨d, hdmem, rfl⟩
        have hne : ¬ (e0.id == d.id) = true := by
          simp [h1]
          intro hc
          exact hnd'.1 (hc ▸ hdid)
        rw [List.get?_cons_succ]
        obtain ⟨e, he1, he2⟩ := ih l0' h2 hnd'.2 j' d hd
        refine ⟨e, he1, ?_⟩
        have hb : (e0.id == d.id) = false := by
          revert hne
          cases (e0.id == d.id) <;> simp
        rw [List.find?_cons, hb]
        exact he2

lemma applyRowUpdates_ids (deposits upd : List Deposit) :
    (applyRowUpdates deposits upd).map (·.id) = deposits.map (·.id) := by
  unfold applyRowUpdates
  rw [List.map_map]
  apply List.map_congr_left
  intro d _
  dsimp only [Function.comp]
  cases hf : upd.find? (fun u => u.id == d.id) with
  | none => simp
  | some f =>
    have := List.find?_some hf
    simp at this ⊢
    exact this

lemma deposit_fifo_use_ok_parts (filterCol : Deposit → Option Nat) (v : Nat)
    (deposits : List Deposit) (A : ℚ) (ctx : FifoCtx) (out : FifoOutcome)
    (hok : deposit_fifo_use filterCol v deposits A ctx = .ok out) :
    out.deposits = applyRowUpdates deposits
        ((fifoStep ctx A (fifoSelect filterCol v deposits)).1) ∧
      out.usages = (fifoStep ctx A (fifoSelect filterCol v deposits)).2 ∧
      ¬ A > ((fifoSelect filterCol v deposits).map (·.remaining_amount)).sum := by
  unfold deposit_fifo_use at hok
  dsimp only at hok
  split_ifs at hok with hins
  injection hok with h
  subst h
  exact ⟨rfl, rfl, hins⟩

lemma fifoSelect_ids_nodup (filterCol : Deposit → Option Nat) (v : Nat)
    (deposits : List Deposit)
    (hNodup : (deposits.map (·.id)).Nodup) :
    ((fifoSelect filterCol v deposits).map (·.id)).Nodup := by
  have hfil : ((deposits.filter (fun d =>
      filterCol d == some v && !d.is_exhausted)).map (·.id)).Nodup :=
    ((List.filter_sublist deposits).map (·.id)).nodup hNodup
  have hperm : List.Perm
      (List.insertionSort depositDateLe
        (deposits.filter (fun d => filterCol d == some v && !d.is_exhausted)))
      (deposits.filter (fun d => filterCol d == some v && !d.is_exhausted)) :=
    List.perm_insertionSort depositDateLe _
  exact ((hperm.map (·.id)).symm.nodup hfil)

lemma fifoSelect_mem (filterCol : Deposit → Option Nat) (v : Nat)
    (deposits : List Deposit) :
    ∀ d ∈ fifoSelect filterCol v deposits,
      d ∈ deposits ∧ d.is_exhausted = false ∧ filterCol d = some v := by
  intro d hd
  have hmf : d ∈ deposits.filter (fun d =>
      filterCol d == some v && !d.is_exhausted) :=
    (List.perm_insertionSort depositDateLe _).subset hd
  have h1 : d ∈ deposits := List.mem_of_mem_filter hmf
  have h2 := List.of_mem_filter hmf
  simp only [Bool.and_eq_true, beq_iff_eq, Bool.not_eq_true'] at h2
  exact ⟨h1, h2.2, h2.1⟩

lemma deposit_fifo_use_reverse (filterCol : Deposit → Option Nat) (v : Nat)
    (deposits : List Deposit) (A : ℚ) (ctx : FifoCtx) (out : FifoOutcome)
    (hNodup : (deposits.map (·.id)).Nodup)
    (hok : deposit_fifo_use filterCol v deposits A ctx = .ok out) :
    out.usages.foldl restoreUsage out.deposits = deposits := by
  obtain ⟨hdep, hus, hins⟩ :=
    deposit_fifo_use_ok_parts filterCol v deposits A ctx out hok
  set sel := fifoSelect filterCol v deposits with hseldef
  set sel' := (fifoStep ctx A sel).1 with hsel'def
  set us := (fifoStep ctx A sel).2 with husdef
  rw [hdep, hus]
  have hselNodup := fifoSelect_ids_nodup filterCol v deposits hNodup
  have hsel'_ids : sel'.map (·.id) = sel.map (·.id) := fifoStep_ids ctx sel A
  have hsel'Nodup : (sel'.map (·.id)).Nodup := by rw [hsel'_ids]; exact hselNodup
  have hmerged_ids : (applyRowUpdates deposits sel').map (·.id) =
      deposits.map (·.id) := applyRowUpdates_ids deposits sel'
  have hmergedNodup : ((applyRowUpdates deposits sel').map (·.id)).Nodup := by
    rw [hmerged_ids]; exact hNodup
  rw [foldl_restore_eq_map us _ hmergedNodup]
  unfold applyRowUpdates
  rw [List.map_map]
  have husids : ∀ u ∈ us, u.deposit_id ∈ sel.map (·.id) := by
    intro u hu
    exact (fifoStep_usage_ids_pfx ctx sel A).sublist.mem
      (List.mem_map.mpr ⟨u, hu, rfl⟩)
  have key : ∀ d ∈ deposits,
      ((fun x => us.foldl (fun x u =>
          if x.id == u.deposit_id then
            { x with remaining_amount := x.remaining_amount + u.amount,
                     is_exhausted := false }
          else x) x) ∘
        (fun d => ((sel'.find? (fun u => u.id == d.id)).getD d))) d = d := by
    intro d hd
    dsimp only [Function.comp]
    by_cases hdin : d.id ∈ sel.map (·.id)
    · obtain ⟨e, he, heid⟩ := List.mem_map.mp hdin
      have hed : e = d :=
        List.inj_on_of_nodup_map hNodup
          ((fifoSelect_mem filterCol v deposits e he).1) hd heid
      subst hed
      obtain ⟨j, hj⟩ := List.mem_iff_get?.mp he
      obtain ⟨e', he'1, he'2⟩ :=
        find?_by_id_get? sel sel' hsel'_ids hselNodup j e hj
      rw [he'2]
      have hRT := fifoStep_reverse ctx sel A
        (fun x hx => (fifoSelect_mem filterCol v deposits x hx).2.1) hselNodup
      rw [foldl_restore_eq_map us sel' hsel'Nodup] at hRT
      have hget : (sel'.map (fun x => us.foldl (fun x u =>
          if x.id == u.deposit_id then
            { x with remaining_amount := x.remaining_amount + u.amount,
                     is_exhausted := false }
          else x) x)).get? j = some e := by
        rw [hRT]; exact hj
      rw [List.get?_map, he'1] at hget
      exact Option.some.inj hget
    · have hmf : sel'.find? (fun u => u.id == d.id) = none := by
        apply List.find?_eq_none.mpr
        intro x hx
        simp only [beq_eq_false_iff_ne, ne_eq, Bool.not_eq_true, beq_iff_eq]
        intro hc
        apply hdin
        rw [← hsel'_ids]
        exact hc ▸ List.mem_map.mpr ⟨x, hx, rfl⟩
      rw [hmf]
      exact foldl_restoreOne_id us d
        (fun u hu hc => hdin (hc ▸ husids u hu))
  calc deposits.map ((fun x => us.foldl (fun x u =>
        if x.id == u.deposit_id then
          { x with remaining_amount := x.remaining_amount + u.amount,
                   is_exhausted := false }
        else x) x) ∘
      (fun d => ((sel'.find? (fun u => u.id == d.id)).getD d))) =
        deposits.map id := by
        apply List.map_congr_left
        intro d hd
        exact key d hd
    _ = deposits := List.map_id deposits

lemma update_deposit_fields_inv (d : Deposit) (data : DepositUpdate)
    (hdinv : depositInv d) (hamt : ∀ a, data.amount = some a → 0 ≤ a) :
    depositInv (update_deposit_fields d data) := by
  obtain ⟨h0, h1, h2⟩ := hdinv
  rcases data with ⟨dd, cc, er, rf, ds, am⟩
  unfold update_deposit_fields
  cases am with
  | none =>
    cases dd <;> cases cc <;> cases er <;> cases rf <;> cases ds <;>
      exact ⟨h0, h1, h2⟩
  | some a =>
    have ha : 0 ≤ a := hamt a rfl
    cases dd <;> cases cc <;> cases er <;> cases rf <;> cases ds <;>
      · by_cases hne : a = d.amount
        · simp [hne]
          exact ⟨h0, h1, h2⟩
        · by_cases hz : d.remaining_amount + (a - d.amount) ≤ 0
          · refine ⟨?_, ?_, ?_⟩ <;> simp [hne, hz, ha]
          · push_neg at hz
            refine ⟨?_, ?_, ?_⟩
            · simp [hne, (by linarith :
                ¬ (d.remaining_amount + (a - d.amount) ≤ 0))]
              linarith
            · simp [hne, (by linarith :
                ¬ (d.remaining_amount + (a - d.amount) ≤ 0))]
              linarith
            · simp [hne, (by linarith :
                ¬ (d.remaining_amount + (a - d.amount) ≤ 0))]
              intro h
              linarith

lemma fifo_demo_eval :
    deposit_fifo_use (fun d => d.profile_id) 1 demoDeposits 40 demoCtx =
      .ok demoOut := by
  norm_num [deposit_fifo_use, fifoSelect, List.insertionSort,
    List.orderedInsert, depositDateLe, SDate.leB, fifoStep, rateTruthy,
    applyRowUpdates, List.find?, round_decimal, halfUpInt, ratFloor_eq,
    demoDeposits, demoD1, demoD2, demoCtx, demoOut, min_def, Option.getD,
    (by decide : (((1:Nat) == 2) : Bool) = false),
    (by decide : (((2:Nat) == 1) : Bool) = false),
    (by decide : (((1:Nat) == 1) : Bool) = true),
    (by decide : (((2:Nat) == 2) : Bool) = true)]

/-- C1: a FIFO consumption call with requested amount `A` fails with
`InsufficientBalance` exactly when `A` exceeds the summed
`remaining_amount` of the owner's non-exhausted deposits (the error path
returns no updated rows, so nothing is mutated); on success the selected
deposits are consumed in `deposit_date` ascending order, the usage rows
follow that order with at most one row per deposit, each usage takes
`min(remaining_to_consume, deposit.remaining_amount)` from its deposit,
and the usage amounts sum to exactly `A`. -/
theorem deposit_fifo_use_spec (filterCol : Deposit → Option Nat) (v : Nat)
    (deposits : List Deposit) (A : ℚ) (ctx : FifoCtx)
    (hA : 0 ≤ A)
    (hNodup : (deposits.map (·.id)).Nodup)
    (hInv : ∀ d ∈ deposits, depositInv d) :
    (deposit_fifo_use filterCol v deposits A ctx = .error "Insufficient balance"
        ↔ A > ((fifoSelect filterCol v deposits).map (·.remaining_amount)).sum) ∧
    List.Sorted depositDateLe (fifoSelect filterCol v deposits) ∧
    ∀ out, deposit_fifo_use filterCol v deposits A ctx = .ok out →
      (out.usages.map (·.amount)).sum = A ∧
      (out.usages.map (·.deposit_id)).Nodup ∧
      (out.usages.map (·.deposit_id)) <+:
        ((fifoSelect filterCol v deposits).map (·.id)) ∧
      ∀ i u d, out.usages.get? i = some u →
        (fifoSelect filterCol v deposits).get? i = some d →
        u.deposit_id = d.id ∧
        u.amount = min (A - ((out.usages.take i).map (·.amount)).sum)
          d.remaining_amount := by
  refine ⟨?_, ?_, ?_⟩
  · constructor
    · intro herr
      unfold deposit_fifo_use at herr
      dsimp only at herr
      split_ifs at herr with hins
      exact hins
    · intro hgt
      unfold deposit_fifo_use
      dsimp only
      split_ifs with hins
      rfl
  · exact List.sorted_insertionSort depositDateLe _
  · intro out hok
    obtain ⟨hdep, hus, hins⟩ :=
      deposit_fifo_use_ok_parts filterCol v deposits A ctx out hok
    push_neg at hins
    have hrem0 : ∀ d ∈ fifoSelect filterCol v deposits,
        0 ≤ d.remaining_amount := by
      intro d hd
      exact (hInv d (fifoSelect_mem filterCol v deposits d hd).1).1
    refine ⟨?_, ?_, ?_, ?_⟩
    · rw [hus, fifoStep_sum ctx _ A hA hrem0]
      exact min_eq_left hins
    · rw [hus]
      exact List.Nodup.sublist
        (fifoStep_usage_ids_pfx ctx _ A).sublist
        (fifoSelect_ids_nodup filterCol v deposits hNodup)
    · rw [hus]
      exact fifoStep_usage_ids_pfx ctx _ A
    · intro i u d hu hd
      rw [hus] at hu
      have h3 := fifoStep_usage_spec ctx (fifoSelect filterCol v deposits)
        A i u d hu hd
      refine ⟨h3.1, ?_⟩
      rw [hus]
      exact h3.2.2

theorem deposit_fifo_use_spec_witness :
    (0:ℚ) ≤ 40 ∧ (demoDeposits.map (·.id)).Nodup ∧
      (∀ d ∈ demoDeposits, depositInv d) ∧
      ((deposit_fifo_use (fun d => d.profile_id) 1 demoDeposits 40 demoCtx =
            .error "Insufficient balance" ↔
          (40:ℚ) > ((fifoSelect (fun d => d.profile_id) 1 demoDeposits).map
            (·.remaining_amount)).sum) ∧
        List.Sorted depositDateLe
          (fifoSelect (fun d => d.profile_id) 1 demoDeposits) ∧
        ∀ out, deposit_fifo_use (fun d => d.profile_id) 1 demoDeposits 40
            demoCtx = .ok out →
          (out.usages.map (·.amount)).sum = 40 ∧
          (out.usages.map (·.deposit_id)).Nodup ∧
          (out.usages.map (·.deposit_id)) <+:
            ((fifoSelect (fun d => d.profile_id) 1 demoDeposits).map (·.id)) ∧
          ∀ i u d, out.usages.get? i = some u →
            (fifoSelect (fun d => d.profile_id) 1 demoDeposits).get? i =
              some d →
            u.deposit_id = d.id ∧
            u.amount = min ((40:ℚ) -
              ((out.usages.take i).map (·.amount)).sum) d.remaining_amount) := by
  have hInv : ∀ d ∈ demoDeposits, depositInv d := by
    intro d hd
    simp only [demoDeposits, List.mem_cons, List.not_mem_nil, or_false] at hd
    rcases hd with rfl | rfl <;> norm_num [depositInv, demoD1, demoD2]
  exact ⟨by norm_num, by decide, hInv,
    deposit_fifo_use_spec (fun d => d.profile_id) 1 demoDeposits 40 demoCtx
      (by norm_num) (by decide) hInv⟩

/-- C3: the deposit-row invariant (`remaining_amount ∈ [0, amount]`,
`is_exhausted ⟺ remaining_amount = 0`) is preserved by every operation
that touches deposits: an administrative field correction
(`update_deposit_fields`, for a nonnegative corrected amount) maps an
invariant-satisfying row to an invariant-satisfying row; after a
successful FIFO consumption every row of the updated table satisfies the
invariant; and the batch-deletion reversal of the run's usage rows
restores exactly the original table, hence again all-invariant rows. -/
theorem deposit_invariant_preserved (filterCol : Deposit → Option Nat)
    (v : Nat) (deposits : List Deposit) (A : ℚ) (ctx : FifoCtx)
    (out : FifoOutcome)
    (hNodup : (deposits.map (·.id)).Nodup)
    (hInv : ∀ x ∈ deposits, depositInv x)
    (hok : deposit_fifo_use filterCol v deposits A ctx = .ok out) :
    (∀ (d : Deposit) (data : DepositUpdate), depositInv d →
        (∀ a, data.amount = some a → 0 ≤ a) →
        depositInv (update_deposit_fields d data)) ∧
    (∀ x ∈ out.deposits, depositInv x) ∧
    out.usages.foldl restoreUsage out.deposits = deposits ∧
    (∀ x ∈ out.usages.foldl restoreUsage out.deposits, depositInv x) := by
  have hrev := deposit_fifo_use_reverse filterCol v deposits A ctx out
    hNodup hok
  refine ⟨fun d data hd ha => update_deposit_fields_inv d data hd ha,
    ?_, hrev, ?_⟩
  · obtain ⟨hdep, hus, hins⟩ :=
      deposit_fifo_use_ok_parts filterCol v deposits A ctx out hok
    intro x hx
    rw [hdep] at hx
    unfold applyRowUpdates at hx
    obtain ⟨d0, hd0, hxeq⟩ := List.mem_map.mp hx
    cases hf : ((fifoStep ctx A (fifoSelect filterCol v deposits)).1).find?
        (fun u => u.id == d0.id) with
    | none =>
      rw [hf] at hxeq
      simp only [Option.getD_none] at hxeq
      exact hxeq ▸ hInv d0 hd0
    | some f =>
      rw [hf] at hxeq
      simp only [Option.getD_some] at hxeq
      have hfmem : f ∈ (fifoStep ctx A (fifoSelect filterCol v deposits)).1 :=
        List.mem_of_find?_eq_some hf
      exact hxeq ▸ fifoStep_inv ctx (fifoSelect filterCol v deposits) A
        (fun y hy => hInv y (fifoSelect_mem filterCol v deposits y hy).1)
        f hfmem
  · rw [hrev]
    exact hInv

theorem deposit_invariant_preserved_witness :
    (demoDeposits.map (·.id)).Nodup ∧
      (∀ x ∈ demoDeposits, depositInv x) ∧
      deposit_fifo_use (fun d => d.profile_id) 1 demoDeposits 40 demoCtx =
        .ok demoOut ∧
      ((∀ (d : Deposit) (data : DepositUpdate), depositInv d →
          (∀ a, data.amount = some a → 0 ≤ a) →
          depositInv (update_deposit_fields d data)) ∧
        (∀ x ∈ demoOut.deposits, depositInv x) ∧
        demoOut.usages.foldl restoreUsage demoOut.deposits = demoDeposits ∧
        (∀ x ∈ demoOut.usages.foldl restoreUsage demoOut.deposits,
          depositInv x)) := by
  have hInv : ∀ x ∈ demoDeposits, depositInv x := by
    intro x hx
    simp only [demoDeposits, List.mem_cons, List.not_mem_nil, or_false] at hx
    rcases hx with rfl | rfl <;> norm_num [depositInv, demoD1, demoD2]
  exact ⟨by decide, hInv, fifo_demo_eval,
    deposit_invariant_preserved (fun d => d.profile_id) 1 demoDeposits 40
      demoCtx demoOut (by decide) hInv fifo_demo_eval⟩

/-- C7: deleting an unconfirmed batch reverses every `DepositUsage` row
created under that batch id. If a FIFO run over `deposits` succeeded with
usage context tagged by the batch, the batch's slip rows exist and none is
confirmed, and the usage table's rows tagged with the batch id are exactly
the run's usage rows, then `delete_batch` succeeds, deletes the batch's
slip and usage rows, and restores the deposit table to exactly its state
before the run. -/
theorem delete_batch_reverses_fifo (filterCol : Deposit → Option Nat)
    (v : Nat) (deposits : List Deposit) (A : ℚ) (ctx : FifoCtx)
    (out : FifoOutcome) (slips : List SlipRecord)
    (usages : List DepositUsage) (batch_id : String)
    (hNodup : (deposits.map (·.id)).Nodup)
    (hok : deposit_fifo_use filterCol v deposits A ctx = .ok out)
    (hU : usages.filter (fun u => u.slip_batch_id == some batch_id) =
      out.usages)
    (hne : (slips.filter (fun s => s.batch_id == batch_id)).isEmpty = false)
    (hunconf : ∀ s ∈ slips, s.batch_id = batch_id → s.is_confirmed = false) :
    delete_batch slips out.deposits usages batch_id =
      .ok { slips := slips.filter (fun s => !(s.batch_id == batch_id)),
            deposits := deposits,
            usages := usages.filter
              (fun u => !(u.slip_batch_id == some batch_id)) } := by
  have h2 : ((slips.filter (fun s => s.batch_id == batch_id)).filter
      (fun s => s.is_confirmed)).isEmpty = true := by
    rw [List.isEmpty_iff, List.filter_eq_nil_iff]
    intro s hs
    have hmem := List.mem_of_mem_filter hs
    have hbid := List.of_mem_filter hs
    simp only [beq_iff_eq] at hbid
    simp [hunconf s hmem hbid]
  unfold delete_batch
  dsimp only
  split_ifs with g1 g2
  · rw [hne] at g1
    exact absurd g1 (by simp)
  · rw [h2] at g2
    exact absurd g2 (by simp)
  · rw [hU, deposit_fifo_use_reverse filterCol v deposits A ctx out
      hNodup hok]

theorem delete_batch_reverses_fifo_witness :
    (demoDeposits.map (·.id)).Nodup ∧
      deposit_fifo_use (fun d => d.profile_id) 1 demoDeposits 40 demoCtx =
        .ok demoOut ∧
      demoOut.usages.filter (fun u => u.slip_batch_id == some "B1") =
        demoOut.usages ∧
      (demoSlips.filter (fun s => s.batch_id == "B1")).isEmpty = false ∧
      (∀ s ∈ demoSlips, s.batch_id = "B1" → s.is_confirmed = false) ∧
      delete_batch demoSlips demoOut.deposits demoOut.usages "B1" =
        .ok { slips := demoSlips.filter (fun s => !(s.batch_id == "B1")),
              deposits := demoDeposits,
              usages := demoOut.usages.filter
                (fun u => !(u.slip_batch_id == some "B1")) } := by
  refine ⟨by decide, fifo_demo_eval, rfl, rfl, by decide, ?_⟩
  exact delete_batch_reverses_fifo (fun d => d.profile_id) 1 demoDeposits 40
    demoCtx demoOut demoSlips demoOut.usages "B1" (by decide) fifo_demo_eval
    rfl rfl (by decide)
